import Mathlib

/-!
Verification development for the DimensionalDirectory repository.

The Python sources are shallowly embedded in Lean: Python `str` values become
`List Char`, SQLite tables become lists of row structures inside one explicit
state record, and every stateful operation becomes a pure function from state
to state.  Fallible Python code (statements that may raise) returns `Except`.
`uuid.uuid4()` is modelled as a counter-backed supply of distinct identifier
strings, and SHA-256 / the BERT embedding model / the BERT word-piece
tokenizer are passed in as opaque function parameters (the spec treats the
hash, the Embedding Provider and the tokenizer as external collaborators).
Recursive helpers are written with an explicit fuel argument sized so that the
fuel can never run out on the recursions the Python code performs; this keeps
every definition executable by the kernel.
-/

namespace DimDir

/-- Python `str` values are modelled as lists of characters. -/
abbrev Str := List Char

/-- Convenience injection of a Lean string literal into the `Str` model. -/
def lit (s : String) : Str := s.data

/-- ASCII whitespace, as recognised by Python `str.strip()` and the regex
class `\s` (the texts this system manipulates are ASCII): space, tab,
newline, carriage return, vertical tab, form feed. -/
def pyIsSpace (c : Char) : Bool :=
  c.toNat = 32 || c.toNat = 9 || c.toNat = 10 || c.toNat = 13 ||
  c.toNat = 11 || c.toNat = 12

/-- Python `str.strip()` with no argument: drop leading and trailing
whitespace. -/
def pyStrip (s : Str) : Str :=
  ((s.dropWhile pyIsSpace).reverse.dropWhile pyIsSpace).reverse

def isAsciiDigit (c : Char) : Bool := 48 ≤ c.toNat && c.toNat ≤ 57

def isAsciiLower (c : Char) : Bool := 97 ≤ c.toNat && c.toNat ≤ 122

def isAsciiUpper (c : Char) : Bool := 65 ≤ c.toNat && c.toNat ≤ 90

def isAsciiAlpha (c : Char) : Bool := isAsciiLower c || isAsciiUpper c

/-- The regex class `\w` (ASCII fragment). -/
def isWordChar (c : Char) : Bool := isAsciiAlpha c || isAsciiDigit c || c = '_'

/-- Python `str.lower()` on one character (ASCII fragment). -/
def pyLowerChar (c : Char) : Char :=
  if isAsciiUpper c then Char.ofNat (c.toNat + 32) else c

/-- Python `str.lower()` (ASCII fragment). -/
def pyLower (s : Str) : Str := s.map pyLowerChar

/-- Python `str.upper()` on one character (ASCII fragment). -/
def pyUpperChar (c : Char) : Char :=
  if isAsciiLower c then Char.ofNat (c.toNat - 32) else c

/-- Python `s.split(sep)` for a one-character separator: always returns at
least one part, parts do not contain the separator, and the separator
characters are dropped. -/
def splitOnChar (sep : Char) : Str → List Str
  | [] => [[]]
  | c :: cs =>
    match splitOnChar sep cs with
    | [] => [[]]
    | s :: rest => if c = sep then [] :: s :: rest else (c :: s) :: rest

/-- Python `sep.join(parts)` for a one-character separator. -/
def joinSep (sep : Char) : List Str → Str
  | [] => []
  | [s] => s
  | s :: rest => s ++ sep :: joinSep sep rest

theorem splitOnChar_ne_nil (sep : Char) (s : Str) : splitOnChar sep s ≠ [] := by
  cases s with
  | nil => simp [splitOnChar]
  | cons c cs =>
    simp only [splitOnChar]
    rcases h : splitOnChar sep cs with _ | ⟨a, rest⟩
    · simp
    · by_cases hc : c = sep <;> simp [hc]

theorem splitOnChar_cons (sep c : Char) (cs : Str) :
    splitOnChar sep (c :: cs) =
      match splitOnChar sep cs with
      | [] => [[]]
      | s :: rest => if c = sep then [] :: s :: rest else (c :: s) :: rest := rfl

theorem splitOnChar_cons_eq {sep : Char} (c : Char) {cs : Str} {a : Str} {rest : List Str}
    (h : splitOnChar sep cs = a :: rest) :
    splitOnChar sep (c :: cs) =
      if c = sep then [] :: a :: rest else (c :: a) :: rest := by
  rw [splitOnChar_cons, h]

theorem splitOnChar_append_sep (sep : Char) (xs ys : Str) :
    splitOnChar sep (xs ++ sep :: ys) = splitOnChar sep xs ++ splitOnChar sep ys := by
  induction xs with
  | nil =>
    rw [List.nil_append, splitOnChar_cons]
    rcases h : splitOnChar sep ys with _ | ⟨a, rest⟩
    · exact absurd h (splitOnChar_ne_nil sep ys)
    · simp [splitOnChar]
  | cons c cs ih =>
    rcases h : splitOnChar sep cs with _ | ⟨a, rest⟩
    · exact absurd h (splitOnChar_ne_nil sep cs)
    · have h2 : splitOnChar sep (cs ++ sep :: ys) = a :: (rest ++ splitOnChar sep ys) := by
        rw [ih, h]; simp
      rw [List.cons_append, splitOnChar_cons_eq c h2, splitOnChar_cons_eq c h]
      by_cases hc : c = sep <;> simp [hc]

theorem splitOnChar_of_not_mem {sep : Char} {s : Str} (h : sep ∉ s) :
    splitOnChar sep s = [s] := by
  induction s with
  | nil => rfl
  | cons c cs ih =>
    have hc : c ≠ sep := fun hq => h (hq ▸ List.mem_cons_self c cs)
    have hcs : sep ∉ cs := fun hq => h (List.mem_cons_of_mem c hq)
    simp only [splitOnChar, ih hcs]
    simp [hc]

theorem joinSep_splitOnChar (sep : Char) (s : Str) :
    joinSep sep (splitOnChar sep s) = s := by
  induction s with
  | nil => rfl
  | cons c cs ih =>
    simp only [splitOnChar]
    rcases h : splitOnChar sep cs with _ | ⟨a, rest⟩
    · exact absurd h (splitOnChar_ne_nil sep cs)
    · rw [h] at ih
      by_cases hc : c = sep
      · subst hc
        simpa [joinSep] using ih
      · simp only [if_neg hc]
        cases rest with
        | nil => simpa [joinSep] using congrArg (c :: ·) ih
        | cons b bs => simpa [joinSep] using congrArg (c :: ·) ih

theorem mem_of_mem_splitOnChar {sep : Char} {s p : Str} {c : Char}
    (hp : p ∈ splitOnChar sep s) (hc : c ∈ p) : c ∈ s := by
  induction s generalizing p with
  | nil =>
    have : p = [] := by simpa [splitOnChar] using hp
    subst this
    exact absurd hc (List.not_mem_nil c)
  | cons a as ih =>
    rcases h : splitOnChar sep as with _ | ⟨q, rest⟩
    · exact absurd h (splitOnChar_ne_nil sep as)
    · rw [splitOnChar_cons_eq a h] at hp
      have hq : q ∈ splitOnChar sep as := by rw [h]; exact List.mem_cons_self q rest
      by_cases ha : a = sep
      · rw [if_pos ha] at hp
        rcases List.mem_cons.mp hp with hp | hp
        · subst hp; exact absurd hc (List.not_mem_nil c)
        · rcases List.mem_cons.mp hp with hp | hp
          · exact List.mem_cons_of_mem a (ih hq (hp ▸ hc))
          · exact List.mem_cons_of_mem a
              (ih (by rw [h]; exact List.mem_cons_of_mem q hp) hc)
      · rw [if_neg ha] at hp
        rcases List.mem_cons.mp hp with hp | hp
        · subst hp
          rcases List.mem_cons.mp hc with hc | hc
          · exact hc ▸ List.mem_cons_self a as
          · exact List.mem_cons_of_mem a (ih hq hc)
        · exact List.mem_cons_of_mem a
            (ih (by rw [h]; exact List.mem_cons_of_mem q hp) hc)

theorem two_le_splitOnChar_length {sep : Char} {s : Str} (h : sep ∈ s) :
    2 ≤ (splitOnChar sep s).length := by
  induction s with
  | nil => exact absurd h (List.not_mem_nil sep)
  | cons c cs ih =>
    rcases hs : splitOnChar sep cs with _ | ⟨a, rest⟩
    · exact absurd hs (splitOnChar_ne_nil sep cs)
    · rw [splitOnChar_cons_eq c hs]
      by_cases hc : c = sep
      · simp [hc]
      · rcases List.mem_cons.mp h with h | h
        · exact absurd h.symm hc
        · have := ih h
          rw [hs] at this
          simpa [hc] using this

theorem joinSep_concat (sep : Char) (l : List Str) (x : Str) (hl : l ≠ []) :
    joinSep sep (l ++ [x]) = joinSep sep l ++ sep :: x := by
  induction l with
  | nil => exact absurd rfl hl
  | cons a as ih =>
    cases as with
    | nil => simp [joinSep]
    | cons b bs =>
      have h2 := ih (by simp)
      calc joinSep sep ((a :: b :: bs) ++ [x])
          = a ++ sep :: joinSep sep ((b :: bs) ++ [x]) := rfl
        _ = a ++ sep :: (joinSep sep (b :: bs) ++ sep :: x) := by rw [h2]
        _ = joinSep sep (a :: b :: bs) ++ sep :: x := by
              simp [joinSep]

/-- Decimal digit character for a digit value below ten. -/
def digitChar : Nat → Char
  | 0 => '0' | 1 => '1' | 2 => '2' | 3 => '3' | 4 => '4'
  | 5 => '5' | 6 => '6' | 7 => '7' | 8 => '8' | _ => '9'

/-- Decimal rendering of a natural number (Python `str(n)` for `n >= 0`),
written with a structural fuel so the kernel can evaluate it; the fuel
`n + 1` always suffices because the recursion divides by ten. -/
def natToStrGo : Nat → Nat → Str
  | 0, _ => []
  | fuel + 1, n =>
    if n < 10 then [digitChar n] else natToStrGo fuel (n / 10) ++ [digitChar (n % 10)]

def natToStr (n : Nat) : Str := natToStrGo (n + 1) n

/-- Python `str(i)` for an `int`. -/
def intToStr : Int → Str
  | Int.ofNat n => natToStr n
  | Int.negSucc m => '-' :: natToStr (m + 1)

/-- Accumulating decimal parser over digit characters. -/
def parseNatAux : Nat → Str → Option Nat
  | acc, [] => some acc
  | acc, c :: cs =>
    if isAsciiDigit c then parseNatAux (acc * 10 + (c.toNat - 48)) cs else none

/-- Python `int(s)` restricted to the plain nonempty digit strings this
system ever feeds it (positions in addresses are rendered as canonical
decimal digits; the separator-free parts other callers pass either are such
digit strings or make `int` raise, which maps to `none`). -/
def parseNat (s : Str) : Option Nat :=
  if s.isEmpty then none else parseNatAux 0 s

theorem digitChar_isDigit {d : Nat} (h : d < 10) : isAsciiDigit (digitChar d) = true := by
  interval_cases d <;> decide

theorem digitChar_toNat {d : Nat} (h : d < 10) : (digitChar d).toNat - 48 = d := by
  interval_cases d <;> decide

theorem parseNatAux_append (acc : Nat) (a b : Str) :
    parseNatAux acc (a ++ b) =
      match parseNatAux acc a with
      | some acc' => parseNatAux acc' b
      | none => none := by
  induction a generalizing acc with
  | nil => simp [parseNatAux]
  | cons c cs ih =>
    by_cases hc : isAsciiDigit c
    · simp [parseNatAux, hc, ih]
    · simp [parseNatAux, hc]

theorem natToStrGo_ne_nil {fuel n : Nat} (h : n < fuel) : natToStrGo fuel n ≠ [] := by
  cases fuel with
  | zero => omega
  | succ f =>
    simp only [natToStrGo]
    by_cases h10 : n < 10
    · simp [h10]
    · simp [h10]

theorem parseNatAux_natToStrGo {fuel n : Nat} (h : n < fuel) (acc : Nat) :
    parseNatAux acc (natToStrGo fuel n) =
      some (acc * 10 ^ (natToStrGo fuel n).length + n) := by
  induction fuel generalizing n acc with
  | zero => omega
  | succ f ih =>
    simp only [natToStrGo]
    by_cases h10 : n < 10
    · simp [h10, parseNatAux, digitChar_isDigit h10, digitChar_toNat h10]
    · have hrec : n / 10 < f := by
        have h1 : n / 10 < n := Nat.div_lt_self (by omega) (by omega)
        omega
      rw [if_neg h10, parseNatAux_append, ih hrec]
      have hm : n % 10 < 10 := Nat.mod_lt _ (by omega)
      simp only [parseNatAux, digitChar_isDigit hm, if_pos, digitChar_toNat hm,
        List.length_append, List.length_singleton]
      congr 1
      have := Nat.div_add_mod n 10
      ring_nf
      omega

theorem parseNat_natToStr (n : Nat) : parseNat (natToStr n) = some n := by
  have hne := natToStrGo_ne_nil (Nat.lt_succ_self n)
  have hpa := parseNatAux_natToStrGo (Nat.lt_succ_self n) 0
  have hemp : (natToStr n).isEmpty = false := by
    show (natToStrGo (n + 1) n).isEmpty = false
    rcases h : natToStrGo (n + 1) n with _ | ⟨c, cs⟩
    · exact absurd h hne
    · rfl
  unfold parseNat
  rw [hemp]
  simp only [Bool.false_eq_true, if_false]
  show parseNatAux 0 (natToStrGo (n + 1) n) = some n
  rw [hpa]
  simp

theorem natToStr_injective : Function.Injective natToStr := by
  intro a b h
  have ha := parseNat_natToStr a
  have hb := parseNat_natToStr b
  rw [h, hb] at ha
  exact (Option.some_injective _ ha).symm

theorem mem_natToStrGo_isDigit {fuel n : Nat} {c : Char}
    (h : c ∈ natToStrGo fuel n) : isAsciiDigit c = true := by
  induction fuel generalizing n with
  | zero => exact absurd h (List.not_mem_nil c)
  | succ f ih =>
    simp only [natToStrGo] at h
    by_cases h10 : n < 10
    · rw [if_pos h10] at h
      have : c = digitChar n := List.mem_singleton.mp h
      exact this ▸ digitChar_isDigit h10
    · rw [if_neg h10] at h
      rcases List.mem_append.mp h with h | h
      · exact ih h
      · have : c = digitChar (n % 10) := List.mem_singleton.mp h
        exact this ▸ digitChar_isDigit (Nat.mod_lt _ (by omega))

theorem mem_natToStr_isDigit {n : Nat} {c : Char} (h : c ∈ natToStr n) :
    isAsciiDigit c = true := mem_natToStrGo_isDigit h

theorem not_dash_mem_natToStr (n : Nat) : '-' ∉ natToStr n := by
  intro h
  have := mem_natToStr_isDigit h
  simp [isAsciiDigit] at this

/-- Insertion into a sorted list by a boolean comparison. -/
def insertSorted (le : α → α → Bool) (a : α) : List α → List α
  | [] => [a]
  | b :: bs => if le a b then a :: b :: bs else b :: insertSorted le a bs

/-- Insertion sort: the model of SQL `ORDER BY` (no claim observes the
precise tie order). -/
def insSort (le : α → α → Bool) : List α → List α
  | [] => []
  | a :: as => insertSorted le a (insSort le as)

/-- Byte-wise lexicographic string comparison (SQLite TEXT ordering on
ASCII data). -/
def strLeB : Str → Str → Bool
  | [], _ => true
  | _ :: _, [] => false
  | a :: as, b :: bs => if a = b then strLeB as bs else decide (a.toNat < b.toNat)

/-- First index at which `sep` occurs inside `s`, scanning left to right. -/
def findSubIdx (sep : Str) : Str → Option Nat
  | [] => if sep.isPrefixOf ([] : Str) then some 0 else none
  | c :: cs =>
    if sep.isPrefixOf (c :: cs) then some 0
    else (findSubIdx sep cs).map (· + 1)

/-- Python `s.split(sep)` for a multi-character separator, by repeatedly
cutting at the leftmost occurrence.  The fuel `s.length + 1` always
suffices because every cut removes at least one character. -/
def pySplitSubGo (sep : Str) : Nat → Str → List Str
  | 0, s => [s]
  | fuel + 1, s =>
    match findSubIdx sep s with
    | none => [s]
    | some i => s.take i :: pySplitSubGo sep fuel (s.drop (i + sep.length))

def pySplitSub (sep s : Str) : List Str :=
  if sep.isEmpty then [s] else pySplitSubGo sep (s.length + 1) s

theorem mem_of_mem_pySplitSubGo {sep : Str} {fuel : Nat} {s p : Str} {c : Char}
    (hp : p ∈ pySplitSubGo sep fuel s) (hc : c ∈ p) : c ∈ s := by
  induction fuel generalizing s p with
  | zero =>
    simp [pySplitSubGo] at hp
    exact hp ▸ hc
  | succ f ih =>
    simp only [pySplitSubGo] at hp
    rcases hf : findSubIdx sep s with _ | i
    · rw [hf] at hp
      simp at hp
      exact hp ▸ hc
    · rw [hf] at hp
      rcases List.mem_cons.mp hp with hp | hp
      · exact List.take_subset i s (hp ▸ hc)
      · exact List.drop_subset _ s (ih hp hc)

theorem mem_of_mem_pySplitSub {sep : Str} {s p : Str} {c : Char}
    (hp : p ∈ pySplitSub sep s) (hc : c ∈ p) : c ∈ s := by
  unfold pySplitSub at hp
  by_cases he : sep.isEmpty
  · rw [if_pos he] at hp
    simp at hp
    exact hp ▸ hc
  · rw [if_neg he] at hp
    exact mem_of_mem_pySplitSubGo hp hc

theorem pyStrip_eq_nil_of_all_space {s : Str} (h : ∀ c ∈ s, pyIsSpace c = true) :
    pyStrip s = [] := by
  unfold pyStrip
  have h1 : s.dropWhile pyIsSpace = [] := List.dropWhile_eq_nil_iff.mpr h
  simp [h1]

theorem pyStrip_of_no_space {s : Str} (h : ∀ c ∈ s, pyIsSpace c = false) :
    pyStrip s = s := by
  unfold pyStrip
  cases s with
  | nil => rfl
  | cons a as =>
    have ha : pyIsSpace a = false := h a (List.mem_cons_self a as)
    rw [List.dropWhile_cons, ha]
    simp only [Bool.false_eq_true, if_false]
    rcases hr : (a :: as).reverse with _ | ⟨b, bs⟩
    · have : (a :: as).reverse ≠ [] := by simp
      exact absurd hr this
    · have hb : b ∈ a :: as := by
        have : b ∈ (a :: as).reverse := hr ▸ List.mem_cons_self b bs
        exact List.mem_reverse.mp this
      rw [List.dropWhile_cons, h b hb]
      simp only [Bool.false_eq_true, if_false]
      rw [← hr, List.reverse_reverse]

/-! ## Data model

One state record holds every SQLite table touched by `DocumentManager`,
`AddressManager`, `ZeroIndexMapper` and `FunctionService` (they all share one
database file), together with the mirrored HDF5 blob groups and the fresh-id
counter standing in for `uuid.uuid4()`. -/

/-- Row of the `documents` table. -/
structure DocRow where
  uuid : Str
  dbidL : Str
  dbidS : Str
  title : Option Str
  source : Option Str
  metadata : Option Str
deriving DecidableEq, Repr

/-- Row of the `sentences` table (the embedding BLOB column is not used by
any claim-relevant read and is omitted from the row). -/
structure SentenceRow where
  uuid : Str
  text : Str
  hash : Str
deriving DecidableEq, Repr

/-- Row of the `doc_sentence_map` table. -/
structure MapRow where
  doc_uuid : Str
  sentence_uuid : Str
  position : Nat
deriving DecidableEq, Repr

/-- Row of the `tokens` table. -/
structure TokenRow where
  id : Nat
  text : Str
  hash : Str
deriving DecidableEq, Repr

/-- Row of the `sentence_token_map` table. -/
structure STMapRow where
  sentence_uuid : Str
  token_id : Nat
  position : Nat
deriving DecidableEq, Repr

/-- Row of the `address_book` table. -/
structure AddrRow where
  addr : Str
  uuid : Option Str
  type : Option Str
  parent_addr : Option Str
  coordinate_system : Option Str
  is_origin : Bool
  zero_index : Nat
deriving DecidableEq, Repr

/-- Row of the `address_attributes` table. -/
structure AttrRow where
  addr : Str
  key : Str
  value : Str
deriving DecidableEq, Repr

/-- Row of the `relations` table (the autoincrement id column carries no
information beyond insertion order and is omitted; an edge row is its
triple). -/
structure RelRow where
  source_uuid : Str
  target_uuid : Str
  relation_type : Str
deriving DecidableEq, Repr

/-- HDF5 `documents/<uuid>` group: content plus the position-to-uuid
sentence reference attributes. -/
structure H5Doc where
  uuid : Str
  dbidL : Str
  dbidS : Str
  content : Str
  sentence_refs : List (Nat × Str)
deriving DecidableEq, Repr

/-- Whole persistent state of the document/address subsystem. -/
structure DB where
  documents : List DocRow
  sentences : List SentenceRow
  doc_sentence_map : List MapRow
  tokens : List TokenRow
  token_autoinc : Nat
  sentence_token_map : List STMapRow
  address_book : List AddrRow
  address_attributes : List AttrRow
  relations : List RelRow
  h5_documents : List H5Doc
  h5_sentences : List (Str × Str)
  h5_tokens : List (Str × Str)
  fresh : Nat
deriving DecidableEq, Repr

/-- The empty database, as produced by the `_init_database` DDL. -/
def DB.empty : DB :=
  ⟨[], [], [], [], 1, [], [], [], [], [], [], [], 0⟩

/-- Modelled Python exceptions (`ValueError`, `sqlite3.IntegrityError`,
`TypeError`); `diverge` marks a spot where the Python code would loop
forever, which the fuel-based model reports instead of not terminating. -/
inductive PyError where
  | valueError
  | integrityError
  | typeError
  | diverge
deriving DecidableEq, Repr

/-- Fresh identifiers: `uuid.uuid4()` is modelled as a counter-backed supply
of distinct identifier strings. -/
def genUuid (n : Nat) : Str := 'u' :: natToStr n

theorem genUuid_injective : Function.Injective genUuid := by
  intro a b h
  exact natToStr_injective (List.cons_injective h)

/-! ## ZeroIndexMapper (`app/core/addressing/zero_index_mapper.py`) -/

/-- `ZeroIndexMapper.map_addr_to_uuid`: parse `doc:id-position` and look the
occurrence up in `doc_sentence_map` joined with `sentences`.  `int(parts[1])`
raises `ValueError` on a non-numeric position, hence the `Except`. -/
def map_addr_to_uuid (db : DB) (address : Str) : Except PyError (Option Str) :=
  let parts := splitOnChar '-' address
  if parts.length < 2 then Except.ok none
  else
    let p0 := parts.headI
    let doc_id := if ':' ∈ p0 then (splitOnChar ':' p0).getD 1 [] else p0
    match parseNat (parts.getD 1 []) with
    | none => Except.error PyError.valueError
    | some position =>
      match db.doc_sentence_map.find? (fun m =>
          decide (m.doc_uuid = doc_id) && decide (m.position = position) &&
          db.sentences.any fun s => decide (s.uuid = m.sentence_uuid)) with
      | some m => Except.ok (some m.sentence_uuid)
      | none => Except.ok none

/-- `ZeroIndexMapper.map_uuid_to_addr`: all `doc:{doc}-{position}` addresses
at which a sentence uuid occurs, ordered as by the SQL `ORDER BY`. -/
def map_uuid_to_addr (db : DB) (uuid : Str) (docFilter : Option Str) : List Str :=
  let rows :=
    match docFilter with
    | some d =>
      insSort (fun (a b : MapRow) => decide (a.position ≤ b.position))
        (db.doc_sentence_map.filter fun m =>
          decide (m.sentence_uuid = uuid) && decide (m.doc_uuid = d))
    | none =>
      insSort (fun (a b : MapRow) =>
          if a.doc_uuid = b.doc_uuid then decide (a.position ≤ b.position)
          else strLeB a.doc_uuid b.doc_uuid)
        (db.doc_sentence_map.filter fun m => decide (m.sentence_uuid = uuid))
  rows.map fun m => lit "doc:" ++ m.doc_uuid ++ '-' :: natToStr m.position

/-- Result dictionary of `ZeroIndexMapper.get_sentence_info`. -/
structure SentenceInfo where
  uuid : Str
  text : Str
  hash : Str
  addresses : List Str
  tokens : List (Str × Nat)
deriving DecidableEq, Repr

/-- `ZeroIndexMapper.get_sentence_info`. -/
def get_sentence_info (db : DB) (uuid : Str) : Option SentenceInfo :=
  match db.sentences.find? (fun r => decide (r.uuid = uuid)) with
  | none => none
  | some row =>
    let addresses := map_uuid_to_addr db uuid none
    let stm := insSort (fun (a b : STMapRow) => decide (a.position ≤ b.position))
      (db.sentence_token_map.filter fun m => decide (m.sentence_uuid = uuid))
    let toks := stm.flatMap fun m =>
      (db.tokens.filter fun t => decide (t.id = m.token_id)).map fun t =>
        (t.text, m.position)
    some ⟨uuid, row.text, row.hash, addresses, toks⟩

/-- `ZeroIndexMapper.get_token_addr`. -/
def get_token_addr (sentence_uuid : Str) (token_position : Nat) : Str :=
  sentence_uuid ++ '-' :: natToStr token_position

/-- `ZeroIndexMapper.resolve_token_addr`: split on `-`, rebuild the uuid from
all parts but the last, and parse the last part as the position. -/
def resolve_token_addr (token_addr : Str) : Option (Str × Nat) :=
  let parts := splitOnChar '-' token_addr
  if parts.length < 2 then none
  else
    let sentence_uuid := joinSep '-' parts.dropLast
    match parseNat (parts.getLastD []) with
    | some position => some (sentence_uuid, position)
    | none => none

/-- Result dictionary of `ZeroIndexMapper.get_token_info`. -/
structure TokenInfo where
  token_addr : Str
  token_id : Nat
  text : Str
  hash : Str
  position : Nat
  sentence_uuid : Str
  sentence_text : Str
deriving DecidableEq, Repr

/-- `ZeroIndexMapper.get_token_info`. -/
def get_token_info (db : DB) (token_addr : Str) : Option TokenInfo :=
  match resolve_token_addr token_addr with
  | none => none
  | some (sentence_uuid, position) =>
    match db.sentence_token_map.find? (fun m =>
        decide (m.sentence_uuid = sentence_uuid) && decide (m.position = position)) with
    | none => none
    | some m =>
      match db.tokens.find? (fun t => decide (t.id = m.token_id)) with
      | none => none
      | some t =>
        match db.sentences.find? (fun s => decide (s.uuid = sentence_uuid)) with
        | none => none
        | some s =>
          some ⟨token_addr, t.id, t.text, t.hash, position, sentence_uuid, s.text⟩

/-! ## AddressManager (`app/services/address_manager.py`) -/

/-- Parent derivation inside `AddressManager.create_address`: everything
before the last `-`, when the address contains a `-`. -/
def parentOf (addr : Str) : Option Str :=
  if '-' ∈ addr then
    let parts := splitOnChar '-' addr
    if 1 < parts.length then some (joinSep '-' parts.dropLast) else none
  else none

theorem parentOf_length_lt {addr p : Str} (h : parentOf addr = some p) :
    p.length < addr.length := by
  unfold parentOf at h
  by_cases hm : '-' ∈ addr
  · rw [if_pos hm] at h
    have h2 := two_le_splitOnChar_length hm
    rw [if_pos (by omega)] at h
    have hp : p = joinSep '-' (splitOnChar '-' addr).dropLast := by
      exact (Option.some.injEq _ _ ▸ h).symm
    rcases hlast : (splitOnChar '-' addr).getLast? with _ | last
    · exact absurd (List.getLast?_eq_none_iff.mp hlast) (splitOnChar_ne_nil '-' addr)
    · have hsplit : splitOnChar '-' addr = (splitOnChar '-' addr).dropLast ++ [last] :=
        (List.dropLast_append_getLast? last hlast).symm
      have hne : (splitOnChar '-' addr).dropLast ≠ [] := by
        intro hnil
        have := congrArg List.length hsplit
        rw [hnil] at this
        simp at this
        omega
      have haddr : addr = joinSep '-' ((splitOnChar '-' addr).dropLast ++ [last]) := by
        conv_lhs => rw [← joinSep_splitOnChar '-' addr]
        rw [← hsplit]
      rw [joinSep_concat _ _ _ hne] at haddr
      have : addr.length = p.length + 1 + last.length := by
        rw [haddr, hp]
        simp
        omega
      omega
  · rw [if_neg hm] at h
    exact absurd h (by simp)

/-- `AddressManager.create_address`, written with a structural fuel: the
recursion ascends the parent chain, whose members are strictly shorter
strings, so fuel `addr.length + 1` can never run out (on exhaustion the
model returns the state unchanged). -/
def create_address_fuel (h : Str → Str) :
    Nat → DB → Str → Option Str → Option Str → Nat → DB
  | 0, db, _, _, _, _ => db
  | fuel + 1, db, addr, uuid_value, addr_type, zero_index =>
    let parent_addr := parentOf addr
    if db.address_book.any fun r => decide (r.addr = addr) then
      { db with address_book := db.address_book.map fun r =>
          if r.addr = addr then
            { r with
              uuid := match uuid_value with | some v => some v | none => r.uuid,
              type := match addr_type with | some v => some v | none => r.type,
              zero_index := zero_index }
          else r }
    else
      let db' :=
        match parent_addr with
        | some p =>
          if db.address_book.any (fun r => decide (r.addr = p)) then db
          else create_address_fuel h fuel db p none addr_type 0
        | none => db
      { db' with address_book := db'.address_book ++
          [⟨addr, uuid_value, addr_type, parent_addr, none, false, zero_index⟩] }

/-- `AddressManager.create_address` (the hash parameter `h` is threaded for
uniformity with the other operations and is unused here). -/
def create_address (db : DB) (addr : Str) (uuid_value : Option Str)
    (addr_type : Option Str) (zero_index : Nat) : DB :=
  create_address_fuel (fun s => s) (addr.length + 1) db addr uuid_value addr_type zero_index

/-- Result dictionary of `AddressManager.get_address` (the `attributes` key
is absent exactly when the list is empty). -/
structure AddressInfo where
  addr : Str
  uuid : Option Str
  type : Option Str
  parent_addr : Option Str
  coordinate_system : Option Str
  is_origin : Bool
  zero_index : Nat
  attributes : List (Str × Str)
deriving DecidableEq, Repr

/-- `AddressManager.get_address`. -/
def get_address (db : DB) (addr : Str) : Option AddressInfo :=
  match db.address_book.find? (fun r => decide (r.addr = addr)) with
  | none => none
  | some r =>
    some ⟨r.addr, r.uuid, r.type, r.parent_addr, r.coordinate_system, r.is_origin,
      r.zero_index,
      (db.address_attributes.filter fun a => decide (a.addr = addr)).map fun a =>
        (a.key, a.value)⟩

/-- `AddressManager.add_address_attribute` (`INSERT OR REPLACE` keyed on
`(addr, attr_key)`). -/
def add_address_attribute (db : DB) (addr key value : Str) : Bool × DB :=
  (true, { db with address_attributes :=
      (db.address_attributes.filter fun a =>
        !(decide (a.addr = addr) && decide (a.key = key))) ++ [⟨addr, key, value⟩] })

/-- Result dictionary of `AddressManager.resolve_address` with
`relative_to=None`.  Optional dictionary keys become `Option`/list fields
that stay `none`/`[]` when the Python code does not set them; the secondary
(zero-index-mapper fallback) resolution path fills the same record shape. -/
structure Resolved where
  addr : Str
  uuid : Option Str
  type : Option Str
  parent_addr : Option Str
  coordinate_system : Option Str
  is_origin : Bool
  zero_index : Nat
  attributes : List (Str × Str)
  content : Option Str
  occurrences : List Str
  tokens : List (Str × Nat)
  sentence_uuid : Option Str
  position : Option Nat
deriving DecidableEq, Repr

/-- Result of `AddressManager.resolve_address` including the optional
`relative_to` block. -/
structure ResolvedTop where
  base : Resolved
  relative_to : Option Resolved
  forward_relations : List Str
  backward_relations : List Str
deriving DecidableEq, Repr

/-- `AddressManager.resolve_address` without the `relative_to` argument (the
recursive call the Python code makes for `relative_to` always passes `None`,
so this is the recursion base). -/
def resolve_address_base (db : DB) (addr : Str) : Except PyError Resolved :=
  match get_address db addr with
  | none =>
    match map_addr_to_uuid db addr with
    | Except.error e => Except.error e
    | Except.ok (some uuid) =>
      match get_sentence_info db uuid with
      | some si =>
        Except.ok ⟨addr, some uuid, some (lit "sentence"), none, none, false, 0, [],
          some si.text, si.addresses, [], none, none⟩
      | none => Except.error PyError.valueError
    | Except.ok none => Except.error PyError.valueError
  | some info =>
    let base : Resolved :=
      ⟨info.addr, info.uuid, info.type, info.parent_addr, info.coordinate_system,
        info.is_origin, info.zero_index, info.attributes, none, [], [], none, none⟩
    match info.type, info.uuid with
    | some ty, some u =>
      if ty = lit "sentence" ∧ u ≠ [] then
        match get_sentence_info db u with
        | some si =>
          Except.ok { base with content := some si.text,
                                occurrences := si.addresses,
                                tokens := si.tokens }
        | none => Except.ok base
      else if ty = lit "token" ∧ u ≠ [] then
        if '.' ∈ addr then
          let parts := splitOnChar '.' addr
          let sentence_addr := parts.headI
          match parseNat (parts.getD 1 []) with
          | none => Except.ok base
          | some token_position =>
            match map_addr_to_uuid db sentence_addr with
            | Except.error _ => Except.ok base
            | Except.ok none => Except.ok base
            | Except.ok (some sentence_uuid) =>
              if sentence_uuid = [] then Except.ok base
              else
                match get_token_info db (get_token_addr sentence_uuid token_position) with
                | some ti =>
                  Except.ok { base with content := some ti.text,
                                        sentence_uuid := some sentence_uuid,
                                        position := some token_position }
                | none => Except.ok base
        else if '-' ∈ u then
          match get_token_info db u with
          | some ti =>
            Except.ok { base with content := some ti.text,
                                  sentence_uuid := some ti.sentence_uuid,
                                  position := some ti.position }
          | none => Except.ok base
        else Except.ok base
      else Except.ok base
    | _, _ => Except.ok base

/-- `AddressManager.resolve_address`. -/
def resolve_address (db : DB) (addr : Str) (relative_to : Option Str) :
    Except PyError ResolvedTop :=
  match resolve_address_base db addr with
  | Except.error e => Except.error e
  | Except.ok base =>
    match relative_to with
    | none => Except.ok ⟨base, none, [], []⟩
    | some rel =>
      match resolve_address_base db rel with
      | Except.error e => Except.error e
      | Except.ok rinfo =>
        if base.type = some (lit "sentence") ∧ rinfo.type = some (lit "sentence") ∧
            base.uuid.getD [] ≠ [] ∧ rinfo.uuid.getD [] ≠ [] then
          let fwd := (db.relations.filter fun r =>
              decide (some r.source_uuid = rinfo.uuid) &&
              decide (some r.target_uuid = base.uuid)).map fun r => r.relation_type
          let bwd := (db.relations.filter fun r =>
              decide (some r.source_uuid = base.uuid) &&
              decide (some r.target_uuid = rinfo.uuid)).map fun r => r.relation_type
          Except.ok ⟨base, some rinfo, fwd, bwd⟩
        else Except.ok ⟨base, some rinfo, [], []⟩

/-- `AddressManager.find_addresses_by_uuid`. -/
def find_addresses_by_uuid (db : DB) (uuid_value : Str) : List Str :=
  (db.address_book.filter fun r => decide (r.uuid = some uuid_value)).map fun r => r.addr

/-- `AddressManager.set_relation`: resolve both endpoints through the
zero-index mapper, then `INSERT OR REPLACE` the edge (the `UNIQUE` triple
constraint makes the replace drop any existing identical triple). -/
def set_relation (db : DB) (source_addr target_addr relation_type : Str) :
    Except PyError (Bool × DB) :=
  match map_addr_to_uuid db source_addr with
  | Except.error e => Except.error e
  | Except.ok source? =>
    match map_addr_to_uuid db target_addr with
    | Except.error e => Except.error e
    | Except.ok target? =>
      match source?, target? with
      | some source_uuid, some target_uuid =>
        let triple : RelRow := ⟨source_uuid, target_uuid, relation_type⟩
        Except.ok (true, { db with relations :=
            (db.relations.filter fun r => !decide (r = triple)) ++ [triple] })
      | _, _ => Except.ok (false, db)

/-! ## DocumentManager (`app/services/document_manager.py`) -/

/-- One step of the `re.split` state machine in
`DocumentManager._split_into_sentences`: the pattern matches a whitespace
character whose left context satisfies `(?<=\.|\?|\!)` and fails both
negative lookbehinds `(?<![A-Z][a-z]\.)` and `(?<!\w\.\w.)`.  `revPrev` is
the reversed list of characters already scanned. -/
def sentSplitBoundary (revPrev : Str) (c : Char) : Bool :=
  pyIsSpace c &&
  (match revPrev with
   | [] => false
   | p1 :: r1 =>
     (p1 = '.' || p1 = '?' || p1 = '!') &&
     !(match r1 with
       | p2 :: p3 :: _ => decide (p1 = '.') && isAsciiLower p2 && isAsciiUpper p3
       | _ => false) &&
     !(match r1 with
       | p2 :: p3 :: p4 :: _ => isWordChar p4 && decide (p3 = '.') && isWordChar p2
       | _ => false))

/-- Scan of the text for `_split_into_sentences`: cut (dropping the matched
whitespace) at every boundary position. -/
def sentSplitGo : Str → Str → Str → List Str
  | _, cur, [] => [cur]
  | revPrev, cur, c :: rest =>
    if sentSplitBoundary revPrev c then cur :: sentSplitGo (c :: revPrev) [] rest
    else sentSplitGo (c :: revPrev) (cur ++ [c]) rest

/-- `DocumentManager._split_into_sentences`. -/
def _split_into_sentences (text : Str) : List Str :=
  ((sentSplitGo [] [] text).map pyStrip).filter fun s => !s.isEmpty

/-- `DocumentManager._get_or_create_sentence` (`h` models SHA-256). -/
def _get_or_create_sentence (h : Str → Str) (db : DB) (sentence_text : Str) :
    (Str × Bool) × DB :=
  let sentence_hash := h sentence_text
  match db.sentences.find? (fun r => decide (r.hash = sentence_hash)) with
  | some r => ((r.uuid, false), db)
  | none =>
    let sentence_uuid := genUuid db.fresh
    let db := { db with
      sentences := db.sentences ++ [⟨sentence_uuid, sentence_text, sentence_hash⟩],
      fresh := db.fresh + 1 }
    let db :=
      if db.h5_sentences.any (fun p => decide (p.1 = sentence_uuid)) then db
      else { db with h5_sentences := db.h5_sentences ++ [(sentence_uuid, sentence_text)] }
    ((sentence_uuid, true), db)

/-- `DocumentManager._map_sentence_to_document` (`INSERT OR IGNORE` under
`UNIQUE(doc_uuid, sentence_uuid, position)`). -/
def _map_sentence_to_document (db : DB) (sentence_uuid doc_uuid : Str)
    (position : Nat) : DB :=
  if db.doc_sentence_map.any (fun r =>
      decide (r.doc_uuid = doc_uuid) && decide (r.sentence_uuid = sentence_uuid) &&
      decide (r.position = position)) then db
  else { db with doc_sentence_map :=
      db.doc_sentence_map ++ [⟨doc_uuid, sentence_uuid, position⟩] }

/-- Maximal runs of word characters: the matches of `\b\w+\b`. -/
def wordRunsAux : Str → Str → List Str
  | [], acc => if acc.isEmpty then [] else [acc.reverse]
  | c :: cs, acc =>
    if isWordChar c then wordRunsAux cs (c :: acc)
    else if acc.isEmpty then wordRunsAux cs []
    else acc.reverse :: wordRunsAux cs []

/-- `DocumentManager._tokenize_sentence`: `re.findall(r'\b\w+\b', s.lower())`. -/
def _tokenize_sentence (sentence : Str) : List Str :=
  wordRunsAux (pyLower sentence) []

/-- `DocumentManager._get_or_create_token` (hash lookup, insert with the
autoincrement id, then re-read the id by hash as the Python code does). -/
def _get_or_create_token (h : Str → Str) (db : DB) (token_text : Str) : Nat × DB :=
  let token_hash := h token_text
  match db.tokens.find? (fun t => decide (t.hash = token_hash)) with
  | some t => (t.id, db)
  | none =>
    let db := { db with
      tokens := db.tokens ++ [(⟨db.token_autoinc, token_text, token_hash⟩ : TokenRow)],
      token_autoinc := db.token_autoinc + 1 }
    match db.tokens.find? (fun (t : TokenRow) => decide (t.hash = token_hash)) with
    | some t => (t.id, db)
    | none => (0, db)

/-- `DocumentManager._map_token_to_sentence` (`INSERT OR IGNORE` under
`UNIQUE(sentence_uuid, position)`). -/
def _map_token_to_sentence (db : DB) (token_id : Nat) (sentence_uuid : Str)
    (position : Nat) : DB :=
  if db.sentence_token_map.any (fun r =>
      decide (r.sentence_uuid = sentence_uuid) && decide (r.position = position)) then db
  else { db with sentence_token_map :=
      db.sentence_token_map ++ [⟨sentence_uuid, token_id, position⟩] }

/-- Per-token dictionary returned by `_process_sentence_tokens`. -/
structure TokenOut where
  id : Nat
  text : Str
  position : Nat
  address : Str
deriving DecidableEq, Repr

/-- One iteration of the loop in `DocumentManager._process_sentence_tokens`
(one enumerated token). -/
def processOneToken (h : Str → Str) (sentence_uuid : Str) (db : DB)
    (position : Nat) (token_text : Str) : TokenOut × DB :=
  let (token_id, db) := _get_or_create_token h db token_text
  let db := _map_token_to_sentence db token_id sentence_uuid position
  let token_addr := get_token_addr sentence_uuid position
  let db := create_address db (sentence_uuid ++ '.' :: natToStr position)
    (some token_addr) (some (lit "token")) position
  let db :=
    if db.h5_tokens.any (fun p => decide (p.1 = token_addr)) then db
    else { db with h5_tokens := db.h5_tokens ++ [(token_addr, token_text)] }
  (⟨token_id, token_text, position, token_addr⟩, db)

/-- Loop of `DocumentManager._process_sentence_tokens` over the enumerated
token list. -/
def processTokensLoop (h : Str → Str) (sentence_uuid : Str) :
    DB → List (Nat × Str) → List TokenOut × DB
  | db, [] => ([], db)
  | db, (position, token_text) :: rest =>
    let (out, db) := processOneToken h sentence_uuid db position token_text
    let (outs, db) := processTokensLoop h sentence_uuid db rest
    (out :: outs, db)

/-- `DocumentManager._process_sentence_tokens`. -/
def _process_sentence_tokens (h : Str → Str) (db : DB)
    (sentence_text sentence_uuid : Str) : List TokenOut × DB :=
  processTokensLoop h sentence_uuid db (_tokenize_sentence sentence_text).enum

/-- Per-sentence dictionary collected by `process_document`. -/
structure SentenceOut where
  uuid : Str
  text : Str
  position : Nat
  address : Str
  is_new : Bool
  tokens : List TokenOut
deriving DecidableEq, Repr

/-- Result dictionary of `DocumentManager.process_document`. -/
structure DocResult where
  uuid : Str
  dbidL : Str
  dbidS : Str
  title : Option Str
  source : Option Str
  sentence_count : Nat
  sentences : List SentenceOut
deriving DecidableEq, Repr

/-- One iteration of the sentence loop in `process_document` (one
enumerated sentence). -/
def processOneSentence (h : Str → Str) (doc_uuid : Str) (db : DB)
    (position : Nat) (sentence_text : Str) : SentenceOut × DB :=
  let ((sentence_uuid, is_new), db) := _get_or_create_sentence h db sentence_text
  let db := _map_sentence_to_document db sentence_uuid doc_uuid position
  let addr := lit "doc:" ++ doc_uuid ++ '-' :: natToStr position
  let db := create_address db addr (some sentence_uuid) (some (lit "sentence")) 0
  let (tokens, db) :=
    if is_new then _process_sentence_tokens h db sentence_text sentence_uuid
    else ([], db)
  (⟨sentence_uuid, sentence_text, position, addr, is_new, tokens⟩, db)

/-- Loop of `process_document` over the enumerated sentence list. -/
def processDocLoop (h : Str → Str) (doc_uuid : Str) :
    DB → List (Nat × Str) → List SentenceOut × DB
  | db, [] => ([], db)
  | db, (position, sentence_text) :: rest =>
    let (out, db) := processOneSentence h doc_uuid db position sentence_text
    let (outs, db) := processDocLoop h doc_uuid db rest
    (out :: outs, db)

/-- `DocumentManager.process_document`.  The plain `INSERT INTO documents`
raises `sqlite3.IntegrityError` when the primary key or the
`UNIQUE(dbidL, dbidS)` constraint is violated. -/
def process_document (h : Str → Str) (db : DB) (content dbidL : Str)
    (dbidS title source metadata : Option Str) : Except PyError (DocResult × DB) :=
  let doc_uuid := genUuid db.fresh
  let db := { db with fresh := db.fresh + 1 }
  let dbidS :=
    match dbidS with
    | some s => if s.isEmpty then doc_uuid.take 8 else s
    | none => doc_uuid.take 8
  if db.documents.any (fun d =>
      decide (d.uuid = doc_uuid) ||
      (decide (d.dbidL = dbidL) && decide (d.dbidS = dbidS))) then
    Except.error PyError.integrityError
  else
    let db := { db with documents :=
        db.documents ++ [⟨doc_uuid, dbidL, dbidS, title, source, metadata⟩] }
    let sentences := _split_into_sentences content
    let (processed, db) := processDocLoop h doc_uuid db sentences.enum
    let db :=
      if db.h5_documents.any (fun d => decide (d.uuid = doc_uuid)) then db
      else { db with h5_documents := db.h5_documents ++
          [⟨doc_uuid, dbidL, dbidS, content, processed.map fun s => (s.position, s.uuid)⟩] }
    Except.ok (⟨doc_uuid, dbidL, dbidS, title, source, processed.length, processed⟩, db)

/-! ## LStableManager (`app/services/lstable_manager.py`)

The `.LStable` files are line files of `dbidL=dbidS` entries; since the keys
this system writes never contain `=`, the `startswith(f"dbidL=")` scan
coincides with key equality, and a file is modelled as an association list.
The random short-id generator `uuid.uuid4().hex[:8]` is passed in as a
stream `gshort : Nat -> Str` consumed left to right. -/

/-- Row of the `lstable` table. -/
structure LSRow where
  dbidL : Str
  dbidS : Str
  description : Option Str
deriving DecidableEq, Repr

/-- State of the L-S mapping subsystem: the SQLite table, the per-dbidL
`.LStable` files, the aggregate `.GlobalLStable` file, and the generator
cursor. -/
structure LSState where
  table : List LSRow
  files : List (Str × List (Str × Str))
  globalFile : List (Str × Str)
  rng : Nat
deriving DecidableEq, Repr

/-- Replace the first line carrying `key`, else append one (the file-update
scan in `_update_lstable_file`). -/
def updListFirst (key val : Str) : List (Str × Str) → List (Str × Str)
  | [] => [(key, val)]
  | (k, v) :: rest =>
    if k = key then (key, val) :: rest else (k, v) :: updListFirst key val rest

/-- `LStableManager._update_lstable_file`: rewrite the per-dbidL file and
the global file. -/
def _update_lstable_file (st : LSState) (dbidL dbidS : Str) : LSState :=
  let per := match st.files.find? (fun f => decide (f.1 = dbidL)) with
    | some f => f.2
    | none => []
  let newPer := updListFirst dbidL dbidS per
  let files :=
    if st.files.any (fun f => decide (f.1 = dbidL)) then
      st.files.map fun f => if f.1 = dbidL then (f.1, newPer) else f
    else st.files ++ [(dbidL, newPer)]
  { st with files := files, globalFile := updListFirst dbidL dbidS st.globalFile }

/-- The retry loop in `register_mapping` that regenerates a short id until
it is unused.  `fuel` bounds the number of draws from the stream; the
callers pass `table.length + 1`, which suffices whenever the stream is
injective (pigeonhole). -/
def regenLoop (gshort : Nat → Str) (table : List LSRow) : Nat → Nat → Option (Str × Nat)
  | _, 0 => none
  | rng, fuel + 1 =>
    let cand := gshort rng
    if table.any (fun r => decide (r.dbidS = cand)) then regenLoop gshort table (rng + 1) fuel
    else some (cand, rng + 1)

/-- `LStableManager.register_mapping`.  A `PyError.diverge` result marks the
case in which the Python retry loop would never find a fresh short id and
hence not terminate (impossible for an injective generator stream). -/
def register_mapping (gshort : Nat → Str) (st : LSState) (dbidL : Str)
    (dbidS : Option Str) (description : Option Str) :
    Except PyError ((Str × Str) × LSState) :=
  let (dbidS, st) :=
    match dbidS with
    | none => (gshort st.rng, { st with rng := st.rng + 1 })
    | some s => if s.isEmpty then (gshort st.rng, { st with rng := st.rng + 1 }) else (s, st)
  match st.table.find? (fun r => decide (r.dbidL = dbidL)) with
  | some r => Except.ok ((dbidL, r.dbidS), st)
  | none =>
    let step : Except PyError (Str × LSState) :=
      if st.table.any (fun r => decide (r.dbidS = dbidS)) then
        match regenLoop gshort st.table st.rng (st.table.length + 1) with
        | some (s', rng') => Except.ok (s', { st with rng := rng' })
        | none => Except.error PyError.diverge
      else Except.ok (dbidS, st)
    match step with
    | Except.error e => Except.error e
    | Except.ok (dbidS, st) =>
      let st := { st with table := st.table ++ [⟨dbidL, dbidS, description⟩] }
      let st := _update_lstable_file st dbidL dbidS
      Except.ok ((dbidL, dbidS), st)

/-! ## DimensionalDirectory (`app/core/dd_manager.py`) and its processor
(`app/services/processors/text.py`)

This is the separate `metadata.db`/`AB.hdf5` store of the
`DimensionalDirectory` class.  The BERT embedding model and the BERT
word-piece tokenizer are external collaborators and enter as the opaque
parameters `embed` and `bertTok`. -/

/-- Row of the `inputs` table. -/
structure InputRow where
  uuid : Str
  original_text : Str
  unit_count : Nat
  batch_type : Str
deriving DecidableEq, Repr

/-- Row of the `units` table. -/
structure UnitRow where
  uuid : Str
  text : Str
  hash : Str
  embedding : List Int
deriving DecidableEq, Repr

/-- Row of the `mappings` table. -/
structure MappingRow where
  input_uuid : Str
  unit_addr : Str
  unit_uuid : Str
  token_addr : Str
  token_text : Str
  embeddingID : Str
deriving DecidableEq, Repr

/-- One `inputs/<uuid>-<addr>` unit group in `AB.hdf5`. -/
structure H5Unit where
  full_unit_addr : Str
  original_unit : Str
  tokens : List Str
  token_addrs : List Str
  embeddings : List (List Int)
deriving DecidableEq, Repr

/-- One `inputs/<uuid>` group in `AB.hdf5`. -/
structure H5Input where
  uuid : Str
  unit_count : Nat
  units : List H5Unit
deriving DecidableEq, Repr

/-- State of the `DimensionalDirectory` store. -/
structure DDState where
  inputs : List InputRow
  units : List UnitRow
  mappings : List MappingRow
  h5_inputs : List H5Input
  rng : Nat
deriving DecidableEq, Repr

/-- The empty `DimensionalDirectory` store. -/
def DDState.empty : DDState := ⟨[], [], [], [], 0⟩

/-- The `batch_type` values `TextDocumentProcessor` accepts. -/
inductive BatchType where
  | sentence
  | paragraph
  | page
deriving DecidableEq, Repr

def batchTypeStr : BatchType → Str
  | BatchType.sentence => lit "sentence"
  | BatchType.paragraph => lit "paragraph"
  | BatchType.page => lit "page"

/-- `TextDocumentProcessor.preprocess`: split by batch type, strip, drop
falsy units, then enumerate with addresses and hashes (`h` models
SHA-256). -/
def preprocess (h : Str → Str) (bt : BatchType) (raw_content : Str) :
    List (Str × Str × Str) :=
  let units : List Str :=
    match bt with
    | BatchType.sentence =>
      ((splitOnChar '.' raw_content).map pyStrip).filter fun s => !s.isEmpty
    | BatchType.paragraph =>
      ((pySplitSub (lit "\n\n") raw_content).map pyStrip).filter fun s => !s.isEmpty
    | BatchType.page =>
      ((splitOnChar (Char.ofNat 12) raw_content).map pyStrip).filter fun s => !s.isEmpty
  units.enum.map fun p => (natToStr p.1, p.2, h p.2)

/-- `TextDocumentProcessor.tokenize`: the BERT tokenizer output with
word-piece continuations and special tokens removed, enumerated. -/
def ddTokenize (bertTok : Str → List Str) (text : Str) : List (Str × Str) :=
  let toks := (bertTok text).filter fun t =>
    !(lit "##").isPrefixOf t && decide (t ≠ lit "[CLS]") && decide (t ≠ lit "[SEP]")
  toks.enum.map fun p => (natToStr p.1, p.2)

/-- `DimensionalDirectory._get_or_create_unit` (`embed` models the BERT
embedding). -/
def _get_or_create_unit (embed : Str → List Int) (st : DDState)
    (text hash : Str) : Str × DDState :=
  match st.units.find? (fun u => decide (u.hash = hash)) with
  | some u => (u.uuid, st)
  | none =>
    let unit_uuid := genUuid st.rng
    (unit_uuid, { st with
      rng := st.rng + 1,
      units := st.units ++ [⟨unit_uuid, text, hash, embed text⟩] })

/-- SQL loop body of `process_input` over the preprocessed unit list. -/
def processUnitsLoop (embed : Str → List Int) (bertTok : Str → List Str)
    (input_uuid : Str) : DDState → List (Str × Str × Str) → DDState
  | st, [] => st
  | st, (unit_addr, unit_text, unit_hash) :: rest =>
    let full_unit_addr := input_uuid ++ '-' :: unit_addr
    let (unit_uuid, st) := _get_or_create_unit embed st unit_text unit_hash
    let st := (ddTokenize bertTok unit_text).foldl
      (fun st p =>
        { st with mappings := st.mappings ++
            [⟨input_uuid, full_unit_addr, unit_uuid, p.1, p.2,
              lit "token-" ++ (input_uuid ++ '-' :: unit_addr ++ '-' :: p.1)⟩] })
      st
    processUnitsLoop embed bertTok input_uuid st rest

/-- `DimensionalDirectory.process_input`.  The `raise ValueError` for an
empty unit list happens before any database write; the uuid for the input
was already drawn at that point. -/
def process_input (embed : Str → List Int) (bertTok : Str → List Str)
    (h : Str → Str) (bt : BatchType) (st : DDState) (raw_input : Str) :
    Except PyError (Str × Nat) × DDState :=
  let input_uuid := genUuid st.rng
  let st := { st with rng := st.rng + 1 }
  let units := preprocess h bt raw_input
  let unit_count := units.length
  if units.isEmpty then (Except.error PyError.valueError, st)
  else if st.inputs.any (fun i => decide (i.uuid = input_uuid)) then
    (Except.error PyError.integrityError, st)
  else
    let st := { st with inputs := st.inputs ++
        [⟨input_uuid, raw_input, unit_count, batchTypeStr bt⟩] }
    let st := processUnitsLoop embed bertTok input_uuid st units
    if st.h5_inputs.any (fun i => decide (i.uuid = input_uuid)) then
      (Except.error PyError.valueError, st)
    else
      let h5units := units.map fun u =>
        let toks := ddTokenize bertTok u.2.1
        ⟨input_uuid ++ '-' :: u.1, u.2.1, toks.map Prod.snd, toks.map Prod.fst,
          (toks.map Prod.snd).map embed⟩
      let st := { st with h5_inputs := st.h5_inputs ++
          [⟨input_uuid, unit_count, h5units⟩] }
      (Except.ok (input_uuid, unit_count), st)

/-! ## FunctionService (`app/services/function_service.py`) -/

/-- Values a formula evaluation can produce.  Python float literals are kept
as their raw text (no claim computes with them). -/
inductive Val where
  | vstr : Str → Val
  | vint : Int → Val
  | vfloat : Str → Val
  | vbool : Bool → Val
  | vnone : Val
  | vlist : List Val → Val

/-- A function name matching `\w+(\.\w+)*`: nonempty word segments joined by
dots. -/
def validName (s : Str) : Bool :=
  (splitOnChar '.' s).all fun seg => !seg.isEmpty && seg.all isWordChar

/-- State of the argument-splitting scan in `_parse_formula`. -/
structure SplitSt where
  args : List Str
  current : Str
  in_quotes : Bool
  bracket : Int
deriving DecidableEq, Repr

/-- One character step of the argument-splitting scan. -/
def splitArgsStep (st : SplitSt) (c : Char) : SplitSt :=
  if c = '"' ∧ st.in_quotes = false then
    { st with in_quotes := true, current := st.current ++ [c] }
  else if c = '"' ∧ st.in_quotes = true then
    { st with in_quotes := false, current := st.current ++ [c] }
  else if c = '(' ∧ st.in_quotes = false then
    { st with bracket := st.bracket + 1, current := st.current ++ [c] }
  else if c = ')' ∧ st.in_quotes = false then
    { st with bracket := st.bracket - 1, current := st.current ++ [c] }
  else if c = ',' ∧ st.in_quotes = false ∧ st.bracket = 0 then
    { st with args := st.args ++ [pyStrip st.current], current := [] }
  else { st with current := st.current ++ [c] }

/-- The argument splitter of `_parse_formula` (commas at quote level zero
and paren depth zero separate arguments; a nonempty trailing argument is
stripped and appended). -/
def splitArgs (s : Str) : List Str :=
  let st := s.foldl splitArgsStep ⟨[], [], false, 0⟩
  if st.current.isEmpty then st.args else st.args ++ [pyStrip st.current]

/-- `FunctionService._parse_formula`: strip a leading `=` (and surrounding
whitespace), match the regex `^(\w+(?:\.\w+)*)\((.*)\)$` — `name` of the
form `\w+(\.\w+)*`, then `(`, then an argument region in which `.` cannot
match a newline, then `)`; the unanchored `$` additionally matches just
before one newline at the very end of the string — and split the captured
arguments. -/
def _parse_formula (formula : Str) : Except PyError (Str × List Str) :=
  let formula :=
    match formula with
    | c :: rest => if c = '=' then pyStrip rest else c :: rest
    | [] => []
  let name := formula.takeWhile fun c => isWordChar c || c = '.'
  let rest := formula.drop name.length
  if name.isEmpty || !validName name then Except.error PyError.valueError
  else
    match rest with
    | '(' :: rest2 =>
      if rest2.getLast? = some ')' ∧ '\n' ∉ rest2.dropLast then
        Except.ok (name, splitArgs rest2.dropLast)
      else if rest2.getLast? = some '\n' ∧ rest2.dropLast.getLast? = some ')' ∧
          '\n' ∉ rest2.dropLast.dropLast then
        Except.ok (name, splitArgs rest2.dropLast.dropLast)
      else Except.error PyError.valueError
    | _ => Except.error PyError.valueError

/-- The regex `^[A-Za-z]+[0-9]+$` (spreadsheet cell reference). -/
def cellRefB (s : Str) : Bool :=
  let ls := s.takeWhile isAsciiAlpha
  let rest := s.drop ls.length
  !ls.isEmpty && !rest.isEmpty && rest.all isAsciiDigit

/-- The regex `^doc:[^-]+-\d+$` (direct address literal). -/
def directAddrB (s : Str) : Bool :=
  (lit "doc:").isPrefixOf s &&
  (let r := s.drop 4
   let a := r.takeWhile fun c => decide (c ≠ '-')
   match r.drop a.length with
   | '-' :: ds => !a.isEmpty && !ds.isEmpty && ds.all isAsciiDigit
   | _ => false)

/-- The regex `^-?\d+(\.\d+)?$` (numeric literal). -/
def numLitB (s : Str) : Bool :=
  let s' := match s with
    | '-' :: r => r
    | r => r
  let ds := s'.takeWhile isAsciiDigit
  let rest := s'.drop ds.length
  !ds.isEmpty &&
  (rest.isEmpty ||
   (match rest with
    | '.' :: fs => !fs.isEmpty && fs.all isAsciiDigit
    | _ => false))

/-- Python `int(s)` on a string already known to match `-?\d+`. -/
def pyParseIntSigned (s : Str) : Int :=
  match s with
  | '-' :: r => -(Int.ofNat ((parseNat r).getD 0))
  | r => Int.ofNat ((parseNat r).getD 0)

/-- `FunctionService._cell_to_addr`: parse the column letters and row
digits, and map to the placeholder document address
`doc:current_document-{row-1}` (the column index is computed and unused, as
in the source). -/
def _cell_to_addr (cell_ref : Str) (_context_cell : Option (Int × Int)) :
    Except PyError Str :=
  let ls := cell_ref.takeWhile isAsciiAlpha
  let rest := cell_ref.drop ls.length
  if ls.isEmpty || rest.isEmpty || !rest.all isAsciiDigit then
    Except.error PyError.valueError
  else
    let _col_idx : Int :=
      (ls.foldl (fun acc c => acc * 26 + (Int.ofNat (pyUpperChar c).toNat - 64)) 0) - 1
    let row_idx : Int := Int.ofNat ((parseNat rest).getD 0) - 1
    Except.ok (lit "doc:current_document-" ++ intToStr row_idx)

/-- `FunctionService._rel_function`: first related sentence text for a
relation type, `None` when the source address has no uuid mapping or there
is no such edge. -/
def _rel_function (db : DB) (source_addr rel_type : Str) :
    Except PyError (Option Str) :=
  match map_addr_to_uuid db source_addr with
  | Except.error e => Except.error e
  | Except.ok none => Except.ok none
  | Except.ok (some source_uuid) =>
    let rows := (db.relations.filter fun r =>
        decide (r.source_uuid = source_uuid) &&
        decide (r.relation_type = rel_type)).flatMap fun r =>
      (db.sentences.filter fun s => decide (s.uuid = r.target_uuid)).map fun s => s.text
    Except.ok rows.head?

/-- `FunctionService._rel_all_function`. -/
def _rel_all_function (db : DB) (source_addr rel_type : Str) :
    Except PyError (List Str) :=
  match map_addr_to_uuid db source_addr with
  | Except.error e => Except.error e
  | Except.ok none => Except.ok []
  | Except.ok (some source_uuid) =>
    Except.ok ((db.relations.filter fun r =>
        decide (r.source_uuid = source_uuid) &&
        decide (r.relation_type = rel_type)).flatMap fun r =>
      (db.sentences.filter fun s => decide (s.uuid = r.target_uuid)).map fun s => s.text)

/-- `FunctionService._rel_count_function` (`rel_type=None` or the falsy
empty string count all edges from the source). -/
def _rel_count_function (db : DB) (source_addr : Str) (rel_type : Option Str) :
    Except PyError Nat :=
  match map_addr_to_uuid db source_addr with
  | Except.error e => Except.error e
  | Except.ok none => Except.ok 0
  | Except.ok (some source_uuid) =>
    match rel_type with
    | some t =>
      if t.isEmpty then
        Except.ok (db.relations.filter fun r =>
          decide (r.source_uuid = source_uuid)).length
      else
        Except.ok (db.relations.filter fun r =>
          decide (r.source_uuid = source_uuid) && decide (r.relation_type = t)).length
    | none =>
      Except.ok (db.relations.filter fun r =>
        decide (r.source_uuid = source_uuid)).length

/-- `FunctionService._addr_function`. -/
def _addr_function (db : DB) (uuid_value : Str) : List Str :=
  map_uuid_to_addr db uuid_value none

/-- `FunctionService._uuid_function`. -/
def _uuid_function (db : DB) (addr : Str) : Except PyError (Option Str) :=
  map_addr_to_uuid db addr

/-- The function registry of `FunctionService`. -/
def registryNames : List Str :=
  [lit "rel", lit "rel.all", lit "rel.count", lit "addr", lit "uuid"]

/-- Dispatch `self.function_registry[func_name](*resolved_args)`: a call
with an argument list the Python function signature cannot accept raises
`TypeError`. -/
def callFunction (db : DB) (name : Str) (args : List Val) : Except PyError Val :=
  if name = lit "rel" then
    match args with
    | [Val.vstr a, Val.vstr t] =>
      match _rel_function db a t with
      | Except.error e => Except.error e
      | Except.ok (some s) => Except.ok (Val.vstr s)
      | Except.ok none => Except.ok Val.vnone
    | _ => Except.error PyError.typeError
  else if name = lit "rel.all" then
    match args with
    | [Val.vstr a, Val.vstr t] =>
      match _rel_all_function db a t with
      | Except.error e => Except.error e
      | Except.ok l => Except.ok (Val.vlist (l.map Val.vstr))
    | _ => Except.error PyError.typeError
  else if name = lit "rel.count" then
    match args with
    | [Val.vstr a] =>
      match _rel_count_function db a none with
      | Except.error e => Except.error e
      | Except.ok n => Except.ok (Val.vint (Int.ofNat n))
    | [Val.vstr a, Val.vstr t] =>
      match _rel_count_function db a (some t) with
      | Except.error e => Except.error e
      | Except.ok n => Except.ok (Val.vint (Int.ofNat n))
    | [Val.vstr a, Val.vnone] =>
      match _rel_count_function db a none with
      | Except.error e => Except.error e
      | Except.ok n => Except.ok (Val.vint (Int.ofNat n))
    | _ => Except.error PyError.typeError
  else if name = lit "addr" then
    match args with
    | [Val.vstr u] => Except.ok (Val.vlist ((_addr_function db u).map Val.vstr))
    | _ => Except.error PyError.typeError
  else if name = lit "uuid" then
    match args with
    | [Val.vstr a] =>
      match _uuid_function db a with
      | Except.error e => Except.error e
      | Except.ok (some u) => Except.ok (Val.vstr u)
      | Except.ok none => Except.ok Val.vnone
    | _ => Except.error PyError.typeError
  else Except.error PyError.valueError

/-- Classification of one argument in `_resolve_args`, in source order:
string literal, cell reference, direct address, number, boolean, nested
call (handled by the evaluator `ev` supplied by the caller), opaque
pass-through. -/
def resolveArgWith (ev : Str → Except PyError Val) (db : DB)
    (context_cell : Option (Int × Int)) (arg : Str) : Except PyError Val :=
  if decide (arg.head? = some '"') && decide (arg.getLast? = some '"') then
    Except.ok (Val.vstr (arg.drop 1).dropLast)
  else if cellRefB arg then
    match _cell_to_addr arg context_cell with
    | Except.error e => Except.error e
    | Except.ok a => Except.ok (Val.vstr a)
  else if directAddrB arg then Except.ok (Val.vstr arg)
  else if numLitB arg then
    Except.ok (if '.' ∈ arg then Val.vfloat arg else Val.vint (pyParseIntSigned arg))
  else if pyLower arg = lit "true" then Except.ok (Val.vbool true)
  else if pyLower arg = lit "false" then Except.ok (Val.vbool false)
  else if '(' ∈ arg ∧ ')' ∈ arg then ev arg
  else Except.ok (Val.vstr arg)

/-- `FunctionService._resolve_args` over the argument list. -/
def resolveArgsWith (ev : Str → Except PyError Val) (db : DB)
    (context_cell : Option (Int × Int)) : List Str → Except PyError (List Val)
  | [] => Except.ok []
  | arg :: rest =>
    match resolveArgWith ev db context_cell arg with
    | Except.error e => Except.error e
    | Except.ok v =>
      match resolveArgsWith ev db context_cell rest with
      | Except.error e => Except.error e
      | Except.ok vs => Except.ok (v :: vs)

/-- `FunctionService.evaluate`, with a fuel bound on the nesting recursion
(every nested call evaluates a strictly shorter argument string, so the
fuel `formula.length + 1` used by `evaluate` can never run out). -/
def evaluateFuel (db : DB) (context_cell : Option (Int × Int)) :
    Nat → Str → Except PyError Val
  | 0, _ => Except.error PyError.diverge
  | fuel + 1, formula =>
    match _parse_formula formula with
    | Except.error e => Except.error e
    | Except.ok (func_name, args) =>
      if registryNames.any (fun n => decide (n = func_name)) then
        match resolveArgsWith (evaluateFuel db context_cell fuel) db
            context_cell args with
        | Except.error e => Except.error e
        | Except.ok resolved => callFunction db func_name resolved
      else Except.error PyError.valueError

/-- `FunctionService.evaluate`. -/
def evaluate (db : DB) (formula : Str) (context_cell : Option (Int × Int)) :
    Except PyError Val :=
  evaluateFuel db context_cell (formula.length + 1) formula

/-- A small concrete store with one document occurrence for each of two
sentences, used to exercise relation setting on resolvable addresses. -/
def dbRel : DB :=
  { DB.empty with
      sentences := [⟨lit "ua", lit "A", lit "hA"⟩, ⟨lit "ub", lit "B", lit "hB"⟩],
      doc_sentence_map := [⟨lit "d", lit "ua", 0⟩, ⟨lit "d", lit "ub", 1⟩] }

/-- A small concrete store with three relation edges out of one sentence
uuid, used to exercise the counting functions. -/
def dbCnt : DB :=
  { DB.empty with
      sentences := [⟨lit "u", lit "S", lit "hS"⟩, ⟨lit "t1", lit "A", lit "hA"⟩,
        ⟨lit "t2", lit "B", lit "hB"⟩, ⟨lit "t3", lit "C", lit "hC"⟩],
      doc_sentence_map := [⟨lit "d", lit "u", 0⟩],
      relations := [⟨lit "u", lit "t1", lit "syn"⟩, ⟨lit "u", lit "t2", lit "syn"⟩,
        ⟨lit "u", lit "t3", lit "ant"⟩] }

/-! ## General lemmas about the embedded operations -/

theorem find?_append_of_none {α : Type} {p : α → Bool} {l₁ : List α}
    (h : l₁.find? p = none) (l₂ : List α) :
    (l₁ ++ l₂).find? p = l₂.find? p := by
  rw [List.find?_append, h, Option.none_or]

/-! ## C9: token-address round trip -/

/-- C9: for every sentence identifier string `u` and natural position `p`,
`resolve_token_addr (get_token_addr u p)` returns exactly `(u, p)` — the
uuid is rebuilt from all dash-separated parts but the last, so dashes inside
`u` survive the round trip. -/
theorem token_addr_roundtrip (u : Str) (p : Nat) :
    resolve_token_addr (get_token_addr u p) = some (u, p) := by
  have hsplit : splitOnChar '-' (u ++ '-' :: natToStr p)
      = splitOnChar '-' u ++ [natToStr p] := by
    rw [splitOnChar_append_sep, splitOnChar_of_not_mem (not_dash_mem_natToStr p)]
  have hnn := splitOnChar_ne_nil '-' u
  have hlen : ¬ (splitOnChar '-' u ++ [natToStr p]).length < 2 := by
    rcases hu : splitOnChar '-' u with _ | ⟨a, rest⟩
    · exact absurd hu hnn
    · simp
  unfold get_token_addr resolve_token_addr
  rw [hsplit, if_neg hlen, List.dropLast_concat, joinSep_splitOnChar]
  have hlast : (splitOnChar '-' u ++ [natToStr p]).getLastD [] = natToStr p := by
    rw [List.getLastD_eq_getLast?, List.getLast?_concat]
    rfl
  rw [hlast, parseNat_natToStr]

/-! ## C1: dedup idempotence of sentence creation -/

/-- C1: creating the same sentence text twice yields the same uuid both
times, the second call reports `is_new = false` and leaves the store
untouched (no second row), and `_get_or_create_sentence` preserves
distinctness of the stored hashes, so at most one sentence row exists per
content hash. -/
theorem sentence_dedup_idempotent (h : Str → Str) (db : DB) (t : Str) :
    (_get_or_create_sentence h (_get_or_create_sentence h db t).2 t).1.1
        = (_get_or_create_sentence h db t).1.1 ∧
    (_get_or_create_sentence h (_get_or_create_sentence h db t).2 t).1.2 = false ∧
    (_get_or_create_sentence h (_get_or_create_sentence h db t).2 t).2
        = (_get_or_create_sentence h db t).2 ∧
    ((db.sentences.map SentenceRow.hash).Nodup →
      ((_get_or_create_sentence h db t).2.sentences.map SentenceRow.hash).Nodup) := by
  rcases hf : db.sentences.find? (fun r => decide (r.hash = h t)) with _ | r
  · -- first call inserts a fresh row; the second call finds it
    have hsent1 : (_get_or_create_sentence h db t).2.sentences
        = db.sentences ++ [⟨genUuid db.fresh, t, h t⟩] := by
      simp only [_get_or_create_sentence, hf]
      split <;> rfl
    have huuid1 : (_get_or_create_sentence h db t).1 = (genUuid db.fresh, true) := by
      simp only [_get_or_create_sentence, hf]
    have hfind2 : (_get_or_create_sentence h db t).2.sentences.find?
        (fun r => decide (r.hash = h t)) = some ⟨genUuid db.fresh, t, h t⟩ := by
      rw [hsent1, find?_append_of_none hf]
      simp [List.find?]
    refine ⟨?_, ?_, ?_, ?_⟩
    · conv_lhs => rw [_get_or_create_sentence]
      rw [hfind2, huuid1]
    · conv_lhs => rw [_get_or_create_sentence]
      rw [hfind2]
    · conv_lhs => rw [_get_or_create_sentence]
      rw [hfind2]
    · intro hnd
      rw [hsent1, List.map_append]
      have hnotmem : h t ∉ db.sentences.map SentenceRow.hash := by
        intro hmem
        obtain ⟨r, hr, hrh⟩ := List.mem_map.mp hmem
        have := List.find?_eq_none.mp hf r hr
        simp [hrh] at this
      simp [List.nodup_append, hnd, hnotmem]
  · -- first call found an existing row and changed nothing
    have h1 : _get_or_create_sentence h db t = ((r.uuid, false), db) := by
      simp only [_get_or_create_sentence, hf]
    rw [h1]
    rw [show _get_or_create_sentence h db t = ((r.uuid, false), db) from h1]
    exact ⟨rfl, rfl, rfl, fun hnd => hnd⟩

/-! ## C6: mapping alias collision is a no-op -/

/-- C6: when the long id is already registered (first-registered row `r`),
`register_mapping` with a different explicit short id returns the original
pair `(dbidL, r.dbidS)` and leaves the whole mapping state (table and alias
files) unchanged. -/
theorem register_mapping_existing_noop (g : Nat → Str) (st : LSState)
    (dbidL S2 : Str) (d : Option Str) (r : LSRow)
    (hfound : st.table.find? (fun row => decide (row.dbidL = dbidL)) = some r)
    (hS2 : S2.isEmpty = false) (_hdiff : S2 ≠ r.dbidS) :
    register_mapping g st dbidL (some S2) d = Except.ok ((dbidL, r.dbidS), st) := by
  simp only [register_mapping, hS2, Bool.false_eq_true, if_false, hfound]

/-! ## C4: relation idempotence -/

theorem map_addr_to_uuid_update_relations (db : DB) (X : List RelRow) (a : Str) :
    map_addr_to_uuid { db with relations := X } a = map_addr_to_uuid db a := rfl

theorem count_filter_of_pred {α : Type} [DecidableEq α] {p : α → Bool} {a : α}
    (h : p a = true) (l : List α) : (l.filter p).count a = l.count a := by
  induction l with
  | nil => rfl
  | cons b bs ih =>
    by_cases hb : p b = true
    · rw [List.filter_cons_of_pos hb, List.count_cons, List.count_cons, ih]
    · rw [List.filter_cons_of_neg (by simp [hb]), ih, List.count_cons]
      have hba : (b == a) = false := by
        by_cases hq : b = a
        · subst hq; exact absurd h hb
        · simp [hq]
      rw [hba]
      rfl

/-- C4: when both endpoint addresses resolve, `set_relation` succeeds with
a state `db₁` whose relation table holds the edge triple exactly once while
every other edge keeps its multiplicity, and calling `set_relation` again
with the same arguments returns `db₁` unchanged — a no-op, not an error. -/
theorem set_relation_idempotent (db : DB) (src tgt ty su tu : Str)
    (hs : map_addr_to_uuid db src = Except.ok (some su))
    (ht : map_addr_to_uuid db tgt = Except.ok (some tu)) :
    ∃ db₁, set_relation db src tgt ty = Except.ok (true, db₁) ∧
      db₁.relations.count ⟨su, tu, ty⟩ = 1 ∧
      (∀ e : RelRow, e ≠ ⟨su, tu, ty⟩ →
        db₁.relations.count e = db.relations.count e) ∧
      set_relation db₁ src tgt ty = Except.ok (true, db₁) := by
  have hpdef : ∀ r : RelRow, (!decide (r = (⟨su, tu, ty⟩ : RelRow))) = true ↔
      r ≠ (⟨su, tu, ty⟩ : RelRow) := by
    intro r
    simp
  refine ⟨{ db with relations := (db.relations.filter fun r =>
      !decide (r = (⟨su, tu, ty⟩ : RelRow))) ++ [(⟨su, tu, ty⟩ : RelRow)] },
    ?_, ?_, ?_, ?_⟩
  · simp only [set_relation, hs, ht]
  · show ((db.relations.filter fun r => !decide (r = (⟨su, tu, ty⟩ : RelRow)))
        ++ [(⟨su, tu, ty⟩ : RelRow)]).count (⟨su, tu, ty⟩ : RelRow) = 1
    have hc1 : (db.relations.filter fun r =>
        !decide (r = (⟨su, tu, ty⟩ : RelRow))).count (⟨su, tu, ty⟩ : RelRow) = 0 := by
      rw [List.count_eq_zero]
      intro hmem
      have := List.of_mem_filter hmem
      simp at this
    rw [List.count_append, hc1]
    simp
  · intro e he
    show ((db.relations.filter fun r => !decide (r = (⟨su, tu, ty⟩ : RelRow)))
        ++ [(⟨su, tu, ty⟩ : RelRow)]).count e = db.relations.count e
    have hpe : (fun r => !decide (r = (⟨su, tu, ty⟩ : RelRow))) e = true := by simp [he]
    rw [List.count_append,
      @count_filter_of_pred RelRow _ (fun r => !decide (r = (⟨su, tu, ty⟩ : RelRow)))
        e hpe db.relations]
    simp [List.count_singleton', he]
  · have hfilter2 : (((db.relations.filter fun r =>
        !decide (r = (⟨su, tu, ty⟩ : RelRow))) ++ [(⟨su, tu, ty⟩ : RelRow)]).filter
          fun r => !decide (r = (⟨su, tu, ty⟩ : RelRow)))
        = db.relations.filter fun r => !decide (r = (⟨su, tu, ty⟩ : RelRow)) := by
      rw [List.filter_append, List.filter_filter]
      have h1 : List.filter (fun a =>
          (!decide (a = (⟨su, tu, ty⟩ : RelRow))) &&
          (!decide (a = (⟨su, tu, ty⟩ : RelRow)))) db.relations
          = db.relations.filter fun r => !decide (r = (⟨su, tu, ty⟩ : RelRow)) := by
        apply List.filter_congr
        intro a _
        cases (!decide (a = (⟨su, tu, ty⟩ : RelRow))) <;> rfl
      have h2 : List.filter (fun r => !decide (r = (⟨su, tu, ty⟩ : RelRow)))
          [(⟨su, tu, ty⟩ : RelRow)] = [] := by simp
      rw [h1, h2, List.append_nil]
    simp only [set_relation, map_addr_to_uuid_update_relations, hs, ht, hfilter2]

/-! ## C5: empty-input rejection -/

theorem filter_strip_nil {parts : List Str}
    (hall : ∀ p ∈ parts, ∀ c ∈ p, pyIsSpace c = true) :
    ((parts.map pyStrip).filter fun s => !s.isEmpty) = [] := by
  induction parts with
  | nil => rfl
  | cons p rest ih =>
    have hp : pyStrip p = [] :=
      pyStrip_eq_nil_of_all_space (hall p (List.mem_cons_self p rest))
    rw [List.map_cons, List.filter_cons, hp]
    simp only [List.isEmpty_nil, Bool.not_true, Bool.false_eq_true, if_false]
    exact ih fun q hq c hc => hall q (List.mem_cons_of_mem p hq) c hc

/-- An empty or whitespace-only raw input yields no units from
`TextDocumentProcessor.preprocess`, for every batch type. -/
theorem preprocess_whitespace_nil (h : Str → Str) (bt : BatchType) (raw : Str)
    (hws : ∀ c ∈ raw, pyIsSpace c = true) : preprocess h bt raw = [] := by
  unfold preprocess
  have hempty : ∀ parts : List Str,
      (∀ p ∈ parts, ∀ c ∈ p, c ∈ raw) →
      ((parts.map pyStrip).filter fun s => !s.isEmpty) = [] := by
    intro parts hsub
    exact filter_strip_nil fun p hp c hc => hws c (hsub p hp c hc)
  cases bt with
  | sentence =>
    rw [hempty (splitOnChar '.' raw) fun p hp c hc => mem_of_mem_splitOnChar hp hc]
    rfl
  | paragraph =>
    rw [hempty (pySplitSub (lit "\n\n") raw) fun p hp c hc => mem_of_mem_pySplitSub hp hc]
    rfl
  | page =>
    rw [hempty (splitOnChar (Char.ofNat 12) raw) fun p hp c hc =>
      mem_of_mem_splitOnChar hp hc]
    rfl

/-- C5 (amended): `DimensionalDirectory.process_input` rejects empty or
whitespace-only input with a `ValueError` raised before any store write:
no unit is ever hashed (`preprocess` returns no units) and the relational
tables and blob groups are exactly those of the initial state — only the
uuid4 draw for the would-be input id has been consumed. -/
theorem process_input_rejects_whitespace (embed : Str → List Int)
    (bertTok : Str → List Str) (h : Str → Str) (bt : BatchType)
    (st : DDState) (raw : Str)
    (hws : ∀ c ∈ raw, pyIsSpace c = true) :
    preprocess h bt raw = [] ∧
    process_input embed bertTok h bt st raw =
      (Except.error PyError.valueError, { st with rng := st.rng + 1 }) := by
  have hpre := preprocess_whitespace_nil h bt raw hws
  refine ⟨hpre, ?_⟩
  simp only [process_input, hpre, List.isEmpty_nil, if_true]

/-- C5 (counterexample to the claim as stated): `process_document` does not
reject empty content — on the empty string it succeeds, inserting a
`documents` row and an HDF5 document group with zero sentences, so
"document/content creation fails with `InvalidContent` before any store
write" is false for this creation path. -/
theorem process_document_accepts_empty :
    process_document (fun s => s) DB.empty [] (lit "L") none none none none =
      Except.ok
        (⟨lit "u0", lit "L", lit "u0", none, none, 0, []⟩,
         { DB.empty with
            fresh := 1,
            documents := [⟨lit "u0", lit "L", lit "u0", none, none, none⟩],
            h5_documents := [⟨lit "u0", lit "L", lit "u0", [], []⟩] }) := by
  rfl

/-! ## C10: requested-short-id collision regenerates a fresh id -/

theorem regenLoop_some_of_witness {g : Nat → Str} {table : List LSRow} :
    ∀ fuel rng, (∃ j < fuel, (table.any fun r => decide (r.dbidS = g (rng + j))) = false) →
      ∃ s' rng', regenLoop g table rng fuel = some (s', rng') ∧
        (table.any fun r => decide (r.dbidS = s')) = false := by
  intro fuel
  induction fuel with
  | zero =>
    intro rng hwit
    obtain ⟨j, hj, _⟩ := hwit
    omega
  | succ f ih =>
    intro rng hwit
    by_cases hc : (table.any fun r => decide (r.dbidS = g rng)) = true
    · have hrec : ∃ j < f, (table.any fun r => decide (r.dbidS = g (rng + 1 + j))) = false := by
        obtain ⟨j, hj, hfresh⟩ := hwit
        cases j with
        | zero => rw [Nat.add_zero] at hfresh; rw [hfresh] at hc; exact absurd hc (by simp)
        | succ j' =>
          refine ⟨j', by omega, ?_⟩
          have : rng + 1 + j' = rng + (j' + 1) := by omega
          rw [this]
          exact hfresh
      obtain ⟨s', rng', hres, hfr⟩ := ih (rng + 1) hrec
      refine ⟨s', rng', ?_, hfr⟩
      simp only [regenLoop, hc, if_true]
      exact hres
    · refine ⟨g rng, rng + 1, ?_, by simpa using hc⟩
      simp only [regenLoop, hc]
      simp only [Bool.false_eq_true, if_false]

theorem exists_fresh_short (g : Nat → Str) (hg : Function.Injective g)
    (table : List LSRow) (rng : Nat) :
    ∃ j < table.length + 1, (table.any fun r => decide (r.dbidS = g (rng + j))) = false := by
  by_contra hno
  push_neg at hno
  have hmem : ∀ j < table.length + 1, g (rng + j) ∈ table.map LSRow.dbidS := by
    intro j hj
    have hne := hno j hj
    have hany : (table.any fun r => decide (r.dbidS = g (rng + j))) = true := by
      cases hc : (table.any fun r => decide (r.dbidS = g (rng + j))) with
      | false => exact absurd hc hne
      | true => rfl
    obtain ⟨r, hr, hrS⟩ := List.any_eq_true.mp hany
    exact List.mem_map.mpr ⟨r, hr, of_decide_eq_true hrS⟩
  have hcard := Finset.card_le_card_of_injOn (fun j => g (rng + j))
    (fun j hj => List.mem_toFinset.mpr (hmem j (Finset.mem_range.mp hj)))
    (fun a _ b _ hab => by
      have := hg hab
      omega)
  rw [Finset.card_range] at hcard
  have h2 : (table.map LSRow.dbidS).toFinset.card ≤ table.length := by
    calc (table.map LSRow.dbidS).toFinset.card
        ≤ (table.map LSRow.dbidS).length := List.toFinset_card_le _
      _ = table.length := List.length_map _ _
  omega

/-- C10: with a fresh long id but a requested short id `S` that is already
assigned, `register_mapping` succeeds without error: it discards `S`, draws
a fresh short id `S'` distinct from every short id in the table (hence from
`S`), stores the row `(dbidL, S')`, writes the alias files, and returns
`(dbidL, S')`. -/
theorem register_mapping_regenerates_on_collision (g : Nat → Str)
    (hg : Function.Injective g) (st : LSState) (dbidL S : Str) (d : Option Str)
    (habs : st.table.find? (fun r => decide (r.dbidL = dbidL)) = none)
    (hS : S.isEmpty = false)
    (hcoll : (st.table.any fun r => decide (r.dbidS = S)) = true) :
    ∃ S' rng', register_mapping g st dbidL (some S) d =
        Except.ok ((dbidL, S'),
          _update_lstable_file
            { st with rng := rng', table := st.table ++ [⟨dbidL, S', d⟩] } dbidL S') ∧
      (st.table.any fun r => decide (r.dbidS = S')) = false ∧ S' ≠ S := by
  obtain ⟨S', rng', hloop, hfresh⟩ :=
    regenLoop_some_of_witness (st.table.length + 1) st.rng
      (exists_fresh_short g hg st.table st.rng)
  refine ⟨S', rng', ?_, hfresh, ?_⟩
  · simp only [register_mapping, hS, Bool.false_eq_true, if_false, habs, hcoll,
      if_true, hloop]
  · intro hSS
    rw [hSS, hcoll] at hfresh
    exact absurd hfresh (by simp)

/-! ## C2: position uniqueness -/

theorem create_address_fuel_dsm (h : Str → Str) :
    ∀ (fuel : Nat) (db : DB) (addr : Str) (v t : Option Str) (z : Nat),
      (create_address_fuel h fuel db addr v t z).doc_sentence_map
        = db.doc_sentence_map := by
  intro fuel
  induction fuel with
  | zero => intro db addr v t z; rfl
  | succ f ih =>
    intro db addr v t z
    show (create_address_fuel h (f + 1) db addr v t z).doc_sentence_map
      = db.doc_sentence_map
    rw [create_address_fuel]
    by_cases hex : (db.address_book.any fun r => decide (r.addr = addr)) = true
    · rw [if_pos hex]
    · rw [if_neg hex]
      rcases hpar : parentOf addr with _ | p
      · rfl
      · by_cases hp : (db.address_book.any fun r => decide (r.addr = p)) = true
        · simp only [hp, if_true]
        · simp only [hp, Bool.false_eq_true, if_false]
          exact ih db p none t 0

theorem create_address_dsm (db : DB) (addr : Str) (v t : Option Str) (z : Nat) :
    (create_address db addr v t z).doc_sentence_map = db.doc_sentence_map :=
  create_address_fuel_dsm _ _ db addr v t z

theorem goc_sentence_dsm (h : Str → Str) (db : DB) (t : Str) :
    (_get_or_create_sentence h db t).2.doc_sentence_map = db.doc_sentence_map := by
  unfold _get_or_create_sentence
  rcases hf : db.sentences.find? (fun r => decide (r.hash = h t)) with _ | r
  · simp only [hf]
    split <;> rfl
  · simp only [hf]

theorem goc_token_dsm (h : Str → Str) (db : DB) (t : Str) :
    (_get_or_create_token h db t).2.doc_sentence_map = db.doc_sentence_map := by
  unfold _get_or_create_token
  rcases hf : db.tokens.find? (fun r => decide (r.hash = h t)) with _ | r
  · simp only [hf]
    split <;> rfl
  · simp only [hf]

theorem maptok_dsm (db : DB) (token_id : Nat) (su : Str) (p : Nat) :
    (_map_token_to_sentence db token_id su p).doc_sentence_map
      = db.doc_sentence_map := by
  unfold _map_token_to_sentence
  split <;> rfl

theorem dsm_h5tok_update (db : DB) (X : List (Str × Str)) :
    ({ db with h5_tokens := X }).doc_sentence_map = db.doc_sentence_map := rfl

theorem processOneToken_dsm (h : Str → Str) (su : Str) (db : DB) (position : Nat)
    (token_text : Str) :
    (processOneToken h su db position token_text).2.doc_sentence_map
      = db.doc_sentence_map := by
  unfold processOneToken
  rcases hgoc : _get_or_create_token h db token_text with ⟨token_id, db₁⟩
  have h1 : db₁.doc_sentence_map = db.doc_sentence_map := by
    have := goc_token_dsm h db token_text
    rw [hgoc] at this
    exact this
  simp only [hgoc]
  split
  · rw [create_address_dsm, maptok_dsm, h1]
  · rw [dsm_h5tok_update, create_address_dsm, maptok_dsm, h1]

theorem processTokensLoop_dsm (h : Str → Str) (su : Str) :
    ∀ (l : List (Nat × Str)) (db : DB),
      (processTokensLoop h su db l).2.doc_sentence_map = db.doc_sentence_map := by
  intro l
  induction l with
  | nil => intro db; rfl
  | cons pt rest ih =>
    intro db
    obtain ⟨position, token_text⟩ := pt
    rw [processTokensLoop]
    rcases hone : processOneToken h su db position token_text with ⟨out, db₁⟩
    have h1 : db₁.doc_sentence_map = db.doc_sentence_map := by
      have := processOneToken_dsm h su db position token_text
      rw [hone] at this
      exact this
    simp only [hone]
    rcases hrec : processTokensLoop h su db₁ rest with ⟨outs, db₂⟩
    have h2 : db₂.doc_sentence_map = db₁.doc_sentence_map := by
      have := ih db₁
      rw [hrec] at this
      exact this
    simp only [hrec]
    exact h2.trans h1

theorem pst_dsm (h : Str → Str) (db : DB) (text su : Str) :
    (_process_sentence_tokens h db text su).2.doc_sentence_map
      = db.doc_sentence_map :=
  processTokensLoop_dsm h su _ db

/-- The document-sentence map after one sentence step: when the position is
not yet occupied for this document, exactly the one new occurrence row is
appended. -/
theorem processOneSentence_dsm (h : Str → Str) (doc : Str) (db : DB)
    (position : Nat) (s : Str)
    (hfree : position ∉ (db.doc_sentence_map.filter fun r =>
        decide (r.doc_uuid = doc)).map fun r => r.position) :
    ∃ su, (processOneSentence h doc db position s).2.doc_sentence_map
        = db.doc_sentence_map ++ [⟨doc, su, position⟩] := by
  unfold processOneSentence
  rcases hgoc : _get_or_create_sentence h db s with ⟨⟨su, is_new⟩, db₁⟩
  have h1 : db₁.doc_sentence_map = db.doc_sentence_map := by
    have := goc_sentence_dsm h db s
    rw [hgoc] at this
    exact this
  refine ⟨su, ?_⟩
  simp only [hgoc]
  have hmap : (_map_sentence_to_document db₁ su doc position).doc_sentence_map
      = db.doc_sentence_map ++ [⟨doc, su, position⟩] := by
    unfold _map_sentence_to_document
    rw [h1]
    by_cases hex : (db.doc_sentence_map.any fun r =>
        decide (r.doc_uuid = doc) && decide (r.sentence_uuid = su) &&
        decide (r.position = position)) = true
    · exfalso
      obtain ⟨r, hr, hrp⟩ := List.any_eq_true.mp hex
      simp only [Bool.and_eq_true, decide_eq_true_eq] at hrp
      exact hfree (List.mem_map.mpr ⟨r, List.mem_filter.mpr
        ⟨hr, by simp [hrp.1.1]⟩, hrp.2⟩)
    · rw [if_neg hex]
  split
  · rw [pst_dsm, create_address_dsm, hmap]
  · rw [create_address_dsm, hmap]

/-- Loop invariant for `processDocLoop`: starting from a state whose
occurrence positions for `doc` are exactly `0..i-1` and processing the
sentences enumerated from `i`, the final positions are exactly
`0..i+n-1`. -/
theorem processDocLoop_positions (h : Str → Str) (doc : Str) :
    ∀ (ss : List Str) (i : Nat) (db : DB),
      ((db.doc_sentence_map.filter fun r => decide (r.doc_uuid = doc)).map
        fun r => r.position) = List.range i →
      (((processDocLoop h doc db (List.enumFrom i ss)).2.doc_sentence_map.filter
          fun r => decide (r.doc_uuid = doc)).map fun r => r.position)
        = List.range (i + ss.length) := by
  intro ss
  induction ss with
  | nil =>
    intro i db hi
    simpa [processDocLoop] using hi
  | cons s rest ih =>
    intro i db hi
    rw [List.enumFrom_cons, processDocLoop]
    have hfree : i ∉ (db.doc_sentence_map.filter fun r =>
        decide (r.doc_uuid = doc)).map fun r => r.position := by
      rw [hi]
      simp
    obtain ⟨su, hdsm⟩ := processOneSentence_dsm h doc db i s hfree
    rcases hone : processOneSentence h doc db i s with ⟨out, db₁⟩
    rw [hone] at hdsm
    have hi1 : ((db₁.doc_sentence_map.filter fun r => decide (r.doc_uuid = doc)).map
        fun r => r.position) = List.range (i + 1) := by
      rw [hdsm, List.filter_append, List.map_append, hi]
      simp [List.range_succ]
    have := ih (i + 1) db₁ hi1
    rcases hrec : processDocLoop h doc db₁ (List.enumFrom (i + 1) rest) with ⟨outs, db₂⟩
    rw [hrec] at this
    simp only [hone, hrec]
    have hlen : (s :: rest).length = rest.length + 1 := rfl
    rw [this, hlen]
    congr 1
    omega

/-- C2: under the freshness discipline of the uuid4 supply (every document
uuid in `doc_sentence_map` was drawn from the supply before the current
counter), a successful `process_document` leaves the occurrence positions
recorded for the new document being exactly `0..n-1`, where `n` is the
number of segmented sentences — no gaps and no repeats. -/
theorem position_uniqueness (h : Str → Str) (db : DB) (content dbidL : Str)
    (dbidS title source metadata : Option Str)
    (hfr : ∀ r ∈ db.doc_sentence_map, ∃ k < db.fresh, r.doc_uuid = genUuid k) :
    ∀ res db', process_document h db content dbidL dbidS title source metadata
        = Except.ok (res, db') →
      ((db'.doc_sentence_map.filter fun r => decide (r.doc_uuid = res.uuid)).map
          fun r => r.position)
        = List.range (_split_into_sentences content).length := by
  intro res db' heq
  have hgen : ∀ dbI : DB, dbI.doc_sentence_map = db.doc_sentence_map →
      (((processDocLoop h (genUuid db.fresh) dbI
          ((_split_into_sentences content).enum)).2.doc_sentence_map.filter
            fun r => decide (r.doc_uuid = genUuid db.fresh)).map fun r => r.position)
        = List.range (_split_into_sentences content).length := by
    intro dbI hI
    have := processDocLoop_positions h (genUuid db.fresh)
      (_split_into_sentences content) 0 dbI ?hstart
    · simpa using this
    case hstart =>
    rw [hI]
    have hnil : (db.doc_sentence_map.filter
        fun r => decide (r.doc_uuid = genUuid db.fresh)) = [] := by
      rw [List.filter_eq_nil_iff]
      intro r hr
      obtain ⟨k, hk, hrk⟩ := hfr r hr
      simp only [decide_eq_true_eq]
      rw [hrk]
      intro hgen
      exact absurd (genUuid_injective hgen) (by omega)
    rw [hnil]
    rfl
  have hif : ∀ (C : Prop) (_ : Decidable C) (A : DB) (X : List H5Doc),
      (if C then A else { A with h5_documents := X }).doc_sentence_map
        = A.doc_sentence_map := by
    intro C hC A X
    split <;> rfl
  simp only [process_document] at heq
  split at heq
  · exact absurd heq (by simp)
  · rw [Except.ok.injEq, Prod.mk.injEq] at heq
    obtain ⟨hres, hdb'⟩ := heq
    rw [← hres, ← hdb', hif]
    exact hgen _ (by rfl)

/-! ## C3: address round trip -/

theorem find?_map_addr_preserving (f : AddrRow → AddrRow)
    (hf : ∀ r, (f r).addr = r.addr) (addr : Str) :
    ∀ l : List AddrRow,
      (l.map f).find? (fun r => decide (r.addr = addr))
        = (l.find? fun r => decide (r.addr = addr)).map f := by
  intro l
  induction l with
  | nil => rfl
  | cons a as ih =>
    rw [List.map_cons, List.find?_cons, List.find?_cons]
    by_cases ha : a.addr = addr
    · rw [hf a]
      simp [ha]
    · have h1 : (decide ((f a).addr = addr)) = false := by
        rw [hf a]; simp [ha]
      have h2 : (decide (a.addr = addr)) = false := by simp [ha]
      rw [h1, h2]
      simpa using ih

/-- Every row in the address book after `create_address_fuel` either keeps
the address of a pre-existing row or carries an address no longer than the
one being created (the parent chain only shrinks addresses). -/
theorem create_address_fuel_rows (h : Str → Str) :
    ∀ (fuel : Nat) (db : DB) (addr : Str) (v t : Option Str) (z : Nat),
      ∀ r ∈ (create_address_fuel h fuel db addr v t z).address_book,
        (∃ r₀ ∈ db.address_book, r.addr = r₀.addr) ∨ r.addr.length ≤ addr.length := by
  intro fuel
  induction fuel with
  | zero =>
    intro db addr v t z r hr
    exact Or.inl ⟨r, hr, rfl⟩
  | succ f ih =>
    intro db addr v t z r hr
    rw [create_address_fuel] at hr
    by_cases hex : (db.address_book.any fun r => decide (r.addr = addr)) = true
    · rw [if_pos hex] at hr
      simp only at hr
      obtain ⟨r₀, hr₀, hfr₀⟩ := List.mem_map.mp hr
      left
      refine ⟨r₀, hr₀, ?_⟩
      rw [← hfr₀]
      by_cases hq : r₀.addr = addr <;> simp [hq]
    · rw [if_neg hex] at hr
      simp only at hr
      rcases hpar : parentOf addr with _ | p
      · rw [hpar] at hr
        simp only at hr
        rcases List.mem_append.mp hr with hmem | hmem
        · exact Or.inl ⟨r, hmem, rfl⟩
        · right
          have hx : r = ⟨addr, v, t, none, none, false, z⟩ := by
            simpa using hmem
          rw [hx]
      · rw [hpar] at hr
        simp only at hr
        by_cases hp : (db.address_book.any fun r => decide (r.addr = p)) = true
        · rw [if_pos hp] at hr
          rcases List.mem_append.mp hr with hmem | hmem
          · exact Or.inl ⟨r, hmem, rfl⟩
          · right
            have hx : r = ⟨addr, v, t, some p, none, false, z⟩ := by
              simpa using hmem
            rw [hx]
        · rw [if_neg hp] at hr
          rcases List.mem_append.mp hr with hmem | hmem
          · rcases ih db p none t 0 r hmem with hold | hlen
            · exact Or.inl hold
            · right
              have hlt := parentOf_length_lt hpar
              omega
          · right
            have hx : r = ⟨addr, v, t, some p, none, false, z⟩ := by
              simpa using hmem
            rw [hx]

/-- After `create_address` with a non-null uuid, the first address-book row
matching the address carries exactly that uuid. -/
theorem create_address_uuid_set (db : DB) (addr u : Str) (t : Option Str) (z : Nat) :
    ∃ row, (create_address db addr (some u) t z).address_book.find?
        (fun r => decide (r.addr = addr)) = some row ∧
      row.uuid = some u ∧ row.addr = addr := by
  unfold create_address
  rw [create_address_fuel]
  by_cases hex : (db.address_book.any fun r => decide (r.addr = addr)) = true
  · rw [if_pos hex]
    simp only
    rw [find?_map_addr_preserving _ (fun r => by by_cases hq : r.addr = addr <;> simp [hq])]
    have hsome : ∃ r₀, db.address_book.find? (fun r => decide (r.addr = addr)) = some r₀ := by
      obtain ⟨r₀, hr₀, hp⟩ := List.any_eq_true.mp hex
      exact Option.isSome_iff_exists.mp (List.find?_isSome.mpr ⟨r₀, hr₀, hp⟩)
    obtain ⟨r₀, hr₀⟩ := hsome
    have haddr : r₀.addr = addr := by
      have := List.find?_some hr₀
      simpa using this
    refine ⟨_, by rw [hr₀]; rfl, ?_, ?_⟩
    · simp [haddr]
    · simp [haddr]
  · rw [if_neg hex]
    simp only
    have hnone : ∀ (db' : DB) (pa : Option Str),
        (∀ r ∈ db'.address_book,
          (∃ r₀ ∈ db.address_book, r.addr = r₀.addr) ∨ r.addr.length < addr.length) →
        (db'.address_book ++
            [(⟨addr, some u, t, pa, none, false, z⟩ : AddrRow)]).find?
            (fun r => decide (r.addr = addr))
          = some ⟨addr, some u, t, pa, none, false, z⟩ := by
      intro db' pa hrows
      rw [find?_append_of_none]
      · simp
      · rw [List.find?_eq_none]
        intro r hr
        rcases hrows r hr with ⟨r₀, hr₀, heq⟩ | hlen
        · have : ¬ (r₀.addr = addr) := by
            intro hq
            have : (db.address_book.any fun r => decide (r.addr = addr)) = true :=
              List.any_eq_true.mpr ⟨r₀, hr₀, by simp [hq]⟩
            exact hex this
          simp [heq, this]
        · have : ¬ (r.addr = addr) := by
            intro hq
            rw [hq] at hlen
            omega
          simp [this]
    rcases hpar : parentOf addr with _ | p
    · refine ⟨⟨addr, some u, t, none, none, false, z⟩, ?_, rfl, rfl⟩
      exact hnone db none (fun r hr => Or.inl ⟨r, hr, rfl⟩)
    · by_cases hp : (db.address_book.any fun r => decide (r.addr = p)) = true
      · refine ⟨⟨addr, some u, t, some p, none, false, z⟩, ?_, rfl, rfl⟩
        simp only [hp, if_true]
        exact hnone db (some p) (fun r hr => Or.inl ⟨r, hr, rfl⟩)
      · refine ⟨⟨addr, some u, t, some p, none, false, z⟩, ?_, rfl, rfl⟩
        simp only [hp, Bool.false_eq_true, if_false]
        refine hnone _ (some p) (fun r hr => ?_)
        rcases create_address_fuel_rows (fun s => s) (addr.length) db p none t 0 r hr with
          hold | hlen
        · exact Or.inl hold
        · right
          have := parentOf_length_lt hpar
          omega

/-- `resolve_address_base` reports the uuid stored in the address book when
the address is registered there. -/
theorem resolve_base_uuid (db : DB) (addr : Str) (info : AddressInfo)
    (hga : get_address db addr = some info) :
    ∃ r, resolve_address_base db addr = Except.ok r ∧ r.uuid = info.uuid := by
  obtain ⟨ia, iu, it, ip, ic, io, iz, iat⟩ := info
  simp only [resolve_address_base, hga]
  cases it with
  | none =>
    cases iu with
    | none => exact ⟨_, rfl, rfl⟩
    | some u => exact ⟨_, rfl, rfl⟩
  | some ty =>
    cases iu with
    | none => exact ⟨_, rfl, rfl⟩
    | some u =>
      simp only
      repeat' split
      all_goals exact ⟨_, rfl, rfl⟩

/-- C3: registering an address with a non-null target uuid `u` and then
resolving that address (via `get_address` or `resolve_address`) yields the
uuid `u`. -/
theorem address_roundtrip (db : DB) (addr u : Str) (t : Option Str) (z : Nat) :
    (∃ info, get_address (create_address db addr (some u) t z) addr = some info ∧
      info.uuid = some u) ∧
    (∃ res, resolve_address (create_address db addr (some u) t z) addr none
        = Except.ok res ∧ res.base.uuid = some u) := by
  obtain ⟨row, hfind, huuid, haddr⟩ := create_address_uuid_set db addr u t z
  have hga : get_address (create_address db addr (some u) t z) addr =
      some ⟨row.addr, row.uuid, row.type, row.parent_addr, row.coordinate_system,
        row.is_origin, row.zero_index,
        ((create_address db addr (some u) t z).address_attributes.filter
          fun a => decide (a.addr = addr)).map fun a => (a.key, a.value)⟩ := by
    unfold get_address
    rw [hfind]
  refine ⟨⟨_, hga, huuid⟩, ?_⟩
  obtain ⟨r, hres, hruuid⟩ := resolve_base_uuid _ addr _ hga
  refine ⟨⟨r, none, [], []⟩, ?_, ?_⟩
  · unfold resolve_address
    rw [hres]
  · show r.uuid = some u
    rw [hruuid]
    exact huuid

/-! ## C7: rel.count with no type equals the total related content -/

theorem length_flatten_map {α β : Type} (l : List α) (f : α → List β) :
    (List.flatten (l.map f)).length = (l.map fun a => (f a).length).sum := by
  rw [List.length_flatten, List.map_map]
  rfl

theorem sum_map_eq_length_of_one {α : Type} (l : List α) (f : α → Nat)
    (h : ∀ a ∈ l, f a = 1) : (l.map f).sum = l.length := by
  induction l with
  | nil => rfl
  | cons a as ih =>
    rw [List.map_cons, List.sum_cons, h a (List.mem_cons_self a as),
      ih fun b hb => h b (List.mem_cons_of_mem a hb), List.length_cons]
    omega

theorem rel_all_ok (db : DB) (a u : Str) (t : Str)
    (hres : map_addr_to_uuid db a = Except.ok (some u)) :
    _rel_all_function db a t = Except.ok ((db.relations.filter fun r =>
        decide (r.source_uuid = u) && decide (r.relation_type = t)).flatMap fun r =>
      (db.sentences.filter fun s => decide (s.uuid = r.target_uuid)).map
        fun s => s.text) := by
  unfold _rel_all_function
  rw [hres]

/-- C7: when address `a` resolves to uuid `u` and every relation edge out of
`u` has exactly one matching sentence row (targets written by `set_relation`
always do), `rel.count(a)` with no type argument returns the number of
relation rows whose source is `u`, and that number equals the total length
of the related-content lists `rel.all(a, t)` summed over the distinct
relation types out of `u`. -/
theorem rel_count_total_agreement (db : DB) (a u : Str)
    (hres : map_addr_to_uuid db a = Except.ok (some u))
    (htgt : ∀ r ∈ db.relations, r.source_uuid = u →
      (db.sentences.filter fun s => decide (s.uuid = r.target_uuid)).length = 1) :
    _rel_count_function db a none =
      Except.ok (db.relations.filter fun r => decide (r.source_uuid = u)).length ∧
    (((db.relations.filter fun r => decide (r.source_uuid = u)).map
        (fun r => r.relation_type)).dedup.map fun t =>
          ((_rel_all_function db a t).toOption.getD []).length).sum
      = (db.relations.filter fun r => decide (r.source_uuid = u)).length := by
  constructor
  · unfold _rel_count_function
    rw [hres]
  · set L := db.relations.filter fun r => decide (r.source_uuid = u) with hL
    have hsrc : ∀ r ∈ L, r.source_uuid = u := by
      intro r hr
      have := List.of_mem_filter hr
      simpa using this
    have hall : ∀ t, ((_rel_all_function db a t).toOption.getD []).length
        = (L.filter fun r => decide (r.relation_type = t)).length := by
      intro t
      rw [rel_all_ok db a u t hres]
      show ((db.relations.filter fun r =>
          decide (r.source_uuid = u) && decide (r.relation_type = t)).flatMap fun r =>
        (db.sentences.filter fun s => decide (s.uuid = r.target_uuid)).map
          fun s => s.text).length
        = (L.filter fun r => decide (r.relation_type = t)).length
      have hcomm : (db.relations.filter fun r =>
          decide (r.source_uuid = u) && decide (r.relation_type = t))
          = L.filter fun r => decide (r.relation_type = t) := by
        rw [hL, List.filter_filter]
        apply List.filter_congr
        intro r _
        by_cases h1 : r.relation_type = t <;> by_cases h2 : r.source_uuid = u <;>
          simp [h1, h2]
      rw [hcomm, List.flatMap_def, length_flatten_map]
      have hone : ∀ r ∈ L.filter fun r => decide (r.relation_type = t),
          ((db.sentences.filter fun s => decide (s.uuid = r.target_uuid)).map
            fun s => s.text).length = 1 := by
        intro r hr
        have hrL : r ∈ L := List.mem_of_mem_filter hr
        rw [List.length_map]
        exact htgt r (List.mem_of_mem_filter hrL) (hsrc r hrL)
      rw [sum_map_eq_length_of_one _ _ hone]
    calc (((L.map fun r => r.relation_type).dedup).map fun t =>
            ((_rel_all_function db a t).toOption.getD []).length).sum
        = (((L.map fun r => r.relation_type).dedup).map fun t =>
            (L.filter fun r => decide (r.relation_type = t)).length).sum := by
          congr 1
          apply List.map_congr_left
          intro t _
          exact hall t
      _ = (((L.map fun r => r.relation_type).dedup).map fun t =>
            @List.count Str instBEqOfDecidableEq t (L.map fun r => r.relation_type)).sum := by
          congr 1
          apply List.map_congr_left
          intro t _
          rw [@List.count_eq_countP Str instBEqOfDecidableEq t
              (L.map fun r => r.relation_type),
            List.countP_map, List.countP_eq_length_filter]
          congr 1
      _ = (L.map fun r => r.relation_type).length := List.sum_map_count_dedup_eq_length _
      _ = L.length := List.length_map _ _

/-! ## C8: a formula with an unmapped cell reference evaluates to null -/

theorem alnum_plain {c : Char} (h : (isAsciiAlpha c || isAsciiDigit c) = true) :
    c ≠ '"' ∧ c ≠ '(' ∧ c ≠ ')' ∧ c ≠ ',' ∧ pyIsSpace c = false := by
  simp only [isAsciiAlpha, isAsciiLower, isAsciiUpper, isAsciiDigit, Bool.or_eq_true,
    Bool.and_eq_true, decide_eq_true_eq] at h
  refine ⟨?_, ?_, ?_, ?_, ?_⟩
  · intro he
    have := congrArg Char.toNat he
    simp at this
    omega
  · intro he
    have := congrArg Char.toNat he
    simp at this
    omega
  · intro he
    have := congrArg Char.toNat he
    simp at this
    omega
  · intro he
    have := congrArg Char.toNat he
    simp at this
    omega
  · simp only [pyIsSpace, Bool.or_eq_false_iff, decide_eq_false_iff_not]
    omega

theorem pyStrip_cons_space {c : Char} (h : pyIsSpace c = true) (s : Str) :
    pyStrip (c :: s) = pyStrip s := by
  unfold pyStrip
  rw [List.dropWhile_cons, h]
  simp

theorem pyStrip_eq_self {s : Str}
    (h1 : ∀ c, s.head? = some c → pyIsSpace c = false)
    (h2 : ∀ c, s.getLast? = some c → pyIsSpace c = false) : pyStrip s = s := by
  unfold pyStrip
  cases hs : s with
  | nil => rfl
  | cons a as =>
    have ha : pyIsSpace a = false := h1 a (by rw [hs]; rfl)
    rw [List.dropWhile_cons, ha]
    simp only [Bool.false_eq_true, if_false]
    rcases hr : (a :: as).reverse with _ | ⟨b, bs⟩
    · have : (a :: as).reverse ≠ [] := by simp
      exact absurd hr this
    · have hb : pyIsSpace b = false := by
        apply h2 b
        rw [hs, ← List.head?_reverse, hr]
        rfl
      rw [List.dropWhile_cons, hb]
      simp only [Bool.false_eq_true, if_false]
      rw [← hr, List.reverse_reverse]

/-- A character that is not special for the argument scanner accumulates
onto the current argument. -/
theorem splitArgsStep_plain {c : Char} (hq : c ≠ '"') (hl : c ≠ '(') (hr : c ≠ ')')
    (hcm : c ≠ ',') (args : List Str) (cur : Str) (inq : Bool) (b : Int) :
    splitArgsStep ⟨args, cur, inq, b⟩ c = ⟨args, cur ++ [c], inq, b⟩ := by
  unfold splitArgsStep
  cases inq <;> simp [hq, hl, hr, hcm]

theorem splitArgs_foldl_plain {cs : Str}
    (hcs : ∀ c ∈ cs, c ≠ '"' ∧ c ≠ '(' ∧ c ≠ ')' ∧ c ≠ ',') :
    ∀ (args : List Str) (cur : Str) (inq : Bool) (b : Int),
      cs.foldl splitArgsStep ⟨args, cur, inq, b⟩ = ⟨args, cur ++ cs, inq, b⟩ := by
  induction cs with
  | nil => intro args cur inq b; simp
  | cons c cs ih =>
    intro args cur inq b
    obtain ⟨h1, h2, h3, h4⟩ := hcs c (List.mem_cons_self c cs)
    rw [List.foldl_cons, splitArgsStep_plain h1 h2 h3 h4,
      ih (fun d hd => hcs d (List.mem_cons_of_mem c hd))]
    simp

/-- Inside a quoted region every non-quote character accumulates. -/
theorem splitArgs_foldl_quoted {cs : Str} (hcs : ∀ c ∈ cs, c ≠ '"') :
    ∀ (args : List Str) (cur : Str) (b : Int),
      cs.foldl splitArgsStep ⟨args, cur, true, b⟩ = ⟨args, cur ++ cs, true, b⟩ := by
  induction cs with
  | nil => intro args cur b; simp
  | cons c cs ih =>
    intro args cur b
    have h1 : c ≠ '"' := hcs c (List.mem_cons_self c cs)
    have hstep : splitArgsStep ⟨args, cur, true, b⟩ c = ⟨args, cur ++ [c], true, b⟩ := by
      unfold splitArgsStep
      simp [h1]
    rw [List.foldl_cons, hstep, ih (fun d hd => hcs d (List.mem_cons_of_mem c hd))]
    simp

theorem takeWhile_all_append_stop {p : Char → Bool} {ls ds : Str}
    (hls : ∀ c ∈ ls, p c = true) (hds : ∀ c, ds.head? = some c → p c = false) :
    (ls ++ ds).takeWhile p = ls := by
  induction ls with
  | nil =>
    cases hd : ds with
    | nil => rfl
    | cons d dr =>
      have := hds d (by rw [hd]; rfl)
      simp [List.takeWhile_cons, this]
  | cons a as ih =>
    have ha : p a = true := hls a (List.mem_cons_self a as)
    rw [List.cons_append, List.takeWhile_cons, ha]
    simp only [if_true]
    rw [ih fun c hc => hls c (List.mem_cons_of_mem a hc)]


theorem digit_not_alpha {c : Char} (h : isAsciiDigit c = true) :
    isAsciiAlpha c = false := by
  cases ha : isAsciiAlpha c with
  | false => rfl
  | true =>
    exfalso
    simp only [isAsciiDigit, Bool.and_eq_true, decide_eq_true_eq] at h
    simp only [isAsciiAlpha, isAsciiLower, isAsciiUpper, Bool.or_eq_true,
      Bool.and_eq_true, decide_eq_true_eq] at ha
    omega

theorem resolveArgWith_strlit (ev : Str → Except PyError Val) (db : DB)
    (cc : Option (Int × Int)) (t : Str) :
    resolveArgWith ev db cc ('"' :: (t ++ ['"'])) = Except.ok (Val.vstr t) := by
  have hlast : (('"' :: (t ++ ['"'])) : Str).getLast? = some '"' :=
    List.getLast?_concat ('"' :: t)
  simp only [resolveArgWith, hlast, List.head?_cons, Option.some.injEq,
    decide_eq_true_eq]
  simp [List.dropLast_concat]

theorem resolveArgWith_cellref (ev : Str → Except PyError Val) (db : DB)
    (cc : Option (Int × Int)) (ls ds : Str) (hls : ls ≠ [])
    (hlsa : ∀ c ∈ ls, isAsciiAlpha c = true) (hds : ds ≠ [])
    (hdsd : ∀ c ∈ ds, isAsciiDigit c = true) :
    resolveArgWith ev db cc (ls ++ ds) =
      Except.ok (Val.vstr (lit "doc:current_document-" ++
        intToStr (Int.ofNat ((parseNat ds).getD 0) - 1))) := by
  rcases ls with _ | ⟨l, ls'⟩
  · exact absurd rfl hls
  rcases ds with _ | ⟨d, ds'⟩
  · exact absurd rfl hds
  have htw : ((l :: ls') ++ d :: ds').takeWhile isAsciiAlpha = l :: ls' := by
    apply takeWhile_all_append_stop hlsa
    intro c hc
    simp only [List.head?_cons, Option.some.injEq] at hc
    subst hc
    exact digit_not_alpha (hdsd d (List.mem_cons_self d ds'))
  have hdrop : ((l :: ls') ++ d :: ds').drop (l :: ls').length = d :: ds' :=
    List.drop_left (l :: ls') (d :: ds')
  have hl : l ≠ '"' :=
    (alnum_plain (by rw [hlsa l (List.mem_cons_self l ls')]; rfl)).1
  have hc1 : decide ((((l :: ls') ++ d :: ds') : Str).head? = some '"') = false := by
    simp only [List.cons_append, List.head?_cons, Option.some.injEq]
    exact decide_eq_false hl
  have hall : (d :: ds').all isAsciiDigit = true := List.all_eq_true.mpr hdsd
  have hcell : cellRefB ((l :: ls') ++ d :: ds') = true := by
    simp only [cellRefB, htw, hdrop, List.isEmpty_cons, hall]
    rfl
  have haddr : _cell_to_addr ((l :: ls') ++ d :: ds') cc = Except.ok
      (lit "doc:current_document-" ++
        intToStr (Int.ofNat ((parseNat (d :: ds')).getD 0) - 1)) := by
    simp only [_cell_to_addr, htw, hdrop, List.isEmpty_cons, hall]
    rfl
  simp only [resolveArgWith, hc1, Bool.false_and, Bool.false_eq_true, if_false,
    hcell, if_true, haddr]

theorem alnum_not_newline {c : Char} (h : (isAsciiAlpha c || isAsciiDigit c) = true) :
    c ≠ '\n' := by
  intro he
  have hn := congrArg Char.toNat he
  simp only [isAsciiAlpha, isAsciiLower, isAsciiUpper, isAsciiDigit,
    Bool.or_eq_true, Bool.and_eq_true, decide_eq_true_eq] at h
  simp at hn
  omega

theorem parse_rel_formula (C t : Str)
    (hC : forall c, c ∈ C → (isAsciiAlpha c || isAsciiDigit c) = true)
    (ht : forall c, c ∈ t → c ≠ '"') (htn : forall c, c ∈ t → c ≠ '\n') :
    _parse_formula ('=' :: (lit "rel(" ++ C ++ lit ", \"" ++ t ++ lit "\")")) =
      Except.ok (lit "rel", [C, '"' :: (t ++ ['"'])]) := by
  have hassoc : lit "rel(" ++ C ++ lit ", \"" ++ t ++ lit "\")" =
      'r' :: 'e' :: 'l' :: '(' :: (((C ++ lit ", \"") ++ t) ++ ['"', ')']) := rfl
  rw [hassoc]
  have hsplit : (((C ++ lit ", \"") ++ t) ++ ['"', ')'] : Str) =
      (((C ++ lit ", \"") ++ t) ++ ['"']) ++ [')'] := by simp
  have hstrip : pyStrip
      ('r' :: 'e' :: 'l' :: '(' :: (((C ++ lit ", \"") ++ t) ++ ['"', ')'])) =
      'r' :: 'e' :: 'l' :: '(' :: (((C ++ lit ", \"") ++ t) ++ ['"', ')']) := by
    apply pyStrip_eq_self
    · intro c hc
      simp only [List.head?_cons, Option.some.injEq] at hc
      subst hc
      decide
    · intro c hc
      have hB : ('r' :: 'e' :: 'l' :: '(' ::
          (((C ++ lit ", \"") ++ t) ++ ['"', ')']) : Str) =
          ('r' :: 'e' :: 'l' :: '(' :: (((C ++ lit ", \"") ++ t) ++ ['"'])) ++ [')'] := by
        rw [hsplit]
        rfl
      rw [hB, List.getLast?_concat] at hc
      simp only [Option.some.injEq] at hc
      subst hc
      decide
  have hname : List.takeWhile (fun c => isWordChar c || decide (c = '.'))
      ('r' :: 'e' :: 'l' :: '(' :: (C ++ lit ", \"" ++ t ++ ['"', ')'])) =
      lit "rel" := rfl
  have hne : (lit "rel").isEmpty = false := rfl
  have hval : validName (lit "rel") = true := by decide
  have hdropn : List.drop (lit "rel").length
      ('r' :: 'e' :: 'l' :: '(' :: (C ++ lit ", \"" ++ t ++ ['"', ')'])) =
      '(' :: (C ++ lit ", \"" ++ t ++ ['"', ')']) := rfl
  have hlast2 : ((C ++ lit ", \"" ++ t ++ ['"', ')']) : Str).getLast? = some ')' := by
    rw [hsplit]
    exact List.getLast?_concat _
  have hdl : ((C ++ lit ", \"" ++ t ++ ['"', ')']) : Str).dropLast =
      C ++ lit ", \"" ++ t ++ ['"'] := by
    rw [hsplit]
    exact List.dropLast_concat
  have hnonl : '\n' ∉ ((C ++ lit ", \"" ++ t ++ ['"', ')']) : Str).dropLast := by
    rw [hdl]
    intro hmem
    rcases List.mem_append.mp hmem with h | h
    · rcases List.mem_append.mp h with h2 | h2
      · rcases List.mem_append.mp h2 with h3 | h3
        · exact alnum_not_newline (hC _ h3) rfl
        · exact absurd h3 (by decide)
      · exact htn _ h2 rfl
    · exact absurd h (by decide)
  simp only [_parse_formula, hstrip, if_true, hname, hne, hval, Bool.not_true,
    Bool.false_or, Bool.false_eq_true, if_false, hdropn]
  have hCq : ∀ c ∈ C, c ≠ '"' ∧ c ≠ '(' ∧ c ≠ ')' ∧ c ≠ ',' := fun c hc =>
    ⟨(alnum_plain (hC c hc)).1, (alnum_plain (hC c hc)).2.1,
     (alnum_plain (hC c hc)).2.2.1, (alnum_plain (hC c hc)).2.2.2.1⟩
  have hCns : ∀ c ∈ C, pyIsSpace c = false := fun c hc =>
    (alnum_plain (hC c hc)).2.2.2.2
  have hf1 : List.foldl splitArgsStep ⟨[], [], false, 0⟩ C = ⟨[], C, false, 0⟩ := by
    rw [splitArgs_foldl_plain hCq]
    rfl
  have hf2 : List.foldl splitArgsStep ⟨[], C, false, 0⟩ (lit ", \"") =
      ⟨[pyStrip C], [' ', '"'], true, 0⟩ := rfl
  have hf3 : List.foldl splitArgsStep ⟨[pyStrip C], [' ', '"'], true, 0⟩ t =
      ⟨[pyStrip C], [' ', '"'] ++ t, true, 0⟩ := splitArgs_foldl_quoted ht _ _ _
  have hf4 : List.foldl splitArgsStep ⟨[pyStrip C], [' ', '"'] ++ t, true, 0⟩ ['"'] =
      ⟨[pyStrip C], ([' ', '"'] ++ t) ++ ['"'], false, 0⟩ := rfl
  have hsa : splitArgs (C ++ lit ", \"" ++ t ++ ['"']) = [C, '"' :: (t ++ ['"'])] := by
    unfold splitArgs
    rw [List.foldl_append, List.foldl_append, List.foldl_append, hf1, hf2, hf3, hf4]
    have hie : ((([' ', '"'] ++ t) ++ ['"'] : Str)).isEmpty = false := rfl
    simp only [hie, Bool.false_eq_true, if_false]
    have hstripC : pyStrip C = C := pyStrip_of_no_space hCns
    have hsp2 : pyStrip (([' ', '"'] ++ t) ++ ['"']) = '"' :: (t ++ ['"']) := by
      have h1 : (([' ', '"'] ++ t) ++ ['"'] : Str) = ' ' :: ('"' :: (t ++ ['"'])) := rfl
      rw [h1, pyStrip_cons_space (by decide)]
      apply pyStrip_eq_self
      · intro c hc
        simp only [List.head?_cons, Option.some.injEq] at hc
        subst hc
        decide
      · intro c hc
        have h2 : (('"' :: (t ++ ['"'])) : Str).getLast? = some '"' :=
          List.getLast?_concat ('"' :: t)
        rw [h2] at hc
        simp only [Option.some.injEq] at hc
        subst hc
        decide
    rw [hstripC, hsp2]
    rfl
  rw [if_pos ⟨hlast2, hnonl⟩, hdl, hsa]

/-- C8: counterexample. The spec says evaluating a formula whose cell
reference resolves to an address with no registered uuid mapping fails
with `AddressNotFound`; in the code `_rel_function` instead returns
Python `None` when `map_addr_to_uuid` finds nothing, so on the empty
store `=rel(A1, "x")` (whose `A1` maps to the unmapped address
`doc:current_document-0`) evaluates successfully to `None` rather than
raising any error. -/
theorem evaluate_unmapped_cellref_succeeds :
    evaluate DB.empty (lit "=rel(A1, \"x\")") none = Except.ok Val.vnone := by
  rfl

/-- C8 (amended): for every well-formed formula `=rel(C, "type")` — cell
reference `C` of letters `ls` followed by digits `ds`, and a type string
free of quotes and of newlines (the parse regex `(.*)` cannot match a
newline) — whose `C` resolves to an address with no registered uuid
mapping, `evaluate` does not raise: it succeeds and returns Python
`None`. -/
theorem evaluate_unmapped_cellref_returns_none (db : DB) (ls ds t : Str)
    (hls : ls ≠ []) (hlsa : ∀ c ∈ ls, isAsciiAlpha c = true)
    (hds : ds ≠ []) (hdsd : ∀ c ∈ ds, isAsciiDigit c = true)
    (ht : ∀ c ∈ t, c ≠ '"') (htn : ∀ c ∈ t, c ≠ '\n')
    (hun : map_addr_to_uuid db (lit "doc:current_document-" ++
      intToStr (Int.ofNat ((parseNat ds).getD 0) - 1)) = Except.ok none) :
    evaluate db ('=' :: (lit "rel(" ++ (ls ++ ds) ++ lit ", \"" ++ t ++ lit "\")"))
      none = Except.ok Val.vnone := by
  have hC : ∀ c ∈ ls ++ ds, (isAsciiAlpha c || isAsciiDigit c) = true := by
    intro c hc
    rcases List.mem_append.mp hc with h | h
    · rw [hlsa c h]; rfl
    · rw [hdsd c h]; simp
  have hparse := parse_rel_formula (ls ++ ds) t hC ht htn
  have hreg : registryNames.any (fun n => decide (n = lit "rel")) = true := by decide
  have hres1 : ∀ ev, resolveArgWith ev db none (ls ++ ds) =
      Except.ok (Val.vstr (lit "doc:current_document-" ++
        intToStr (Int.ofNat ((parseNat ds).getD 0) - 1))) := fun ev =>
    resolveArgWith_cellref ev db none ls ds hls hlsa hds hdsd
  have hrel : _rel_function db (lit "doc:current_document-" ++
      intToStr (Int.ofNat ((parseNat ds).getD 0) - 1)) t = Except.ok none := by
    simp only [_rel_function, hun]
  simp only [evaluate, evaluateFuel, hparse, hreg, if_true, resolveArgsWith,
    hres1, resolveArgWith_strlit, callFunction, hrel]

theorem evaluate_unmapped_cellref_returns_none_witness :
    (['B'] : Str) ≠ [] ∧
    evaluate DB.empty
      ('=' :: (lit "rel(" ++ ((['B'] : Str) ++ ['2']) ++ lit ", \"" ++
        (['y'] : Str) ++ lit "\")")) none = Except.ok Val.vnone :=
  ⟨by decide,
   evaluate_unmapped_cellref_returns_none DB.empty ['B'] ['2'] ['y']
     (by decide) (by decide) (by decide) (by decide) (by decide) (by decide)
     (by rfl)⟩

/-! ## Witnesses instantiating the remaining hypothesis-bearing theorems -/

theorem sentence_dedup_idempotent_witness :
    (DB.empty.sentences.map SentenceRow.hash).Nodup ∧
    ((_get_or_create_sentence (fun s => s) DB.empty
        (lit "a")).2.sentences.map SentenceRow.hash).Nodup :=
  ⟨List.nodup_nil,
   (sentence_dedup_idempotent (fun s => s) DB.empty (lit "a")).2.2.2 List.nodup_nil⟩

theorem position_uniqueness_witness :
    (∀ r ∈ DB.empty.doc_sentence_map, ∃ k < DB.empty.fresh, r.doc_uuid = genUuid k) ∧
    ((([⟨lit "u0", lit "u1", 0⟩, ⟨lit "u0", lit "u2", 1⟩] : List MapRow).filter
        fun r => decide (r.doc_uuid = lit "u0")).map fun r => r.position)
      = List.range (_split_into_sentences (lit "Cats exist. Dogs bark.")).length :=
  ⟨fun r hr => absurd hr (List.not_mem_nil r),
   position_uniqueness (fun s => s) DB.empty (lit "Cats exist. Dogs bark.")
     (lit "L") none none none none (fun r hr => absurd hr (List.not_mem_nil r))
     _ _ rfl⟩

theorem set_relation_idempotent_witness :
    map_addr_to_uuid dbRel (lit "doc:d-0") = Except.ok (some (lit "ua")) ∧
    map_addr_to_uuid dbRel (lit "doc:d-1") = Except.ok (some (lit "ub")) ∧
    ∃ db₁, set_relation dbRel (lit "doc:d-0") (lit "doc:d-1") (lit "syn")
        = Except.ok (true, db₁) ∧
      db₁.relations.count ⟨lit "ua", lit "ub", lit "syn"⟩ = 1 ∧
      (∀ e : RelRow, e ≠ ⟨lit "ua", lit "ub", lit "syn"⟩ →
        db₁.relations.count e = dbRel.relations.count e) ∧
      set_relation db₁ (lit "doc:d-0") (lit "doc:d-1") (lit "syn")
        = Except.ok (true, db₁) :=
  ⟨by rfl, by rfl,
   set_relation_idempotent dbRel (lit "doc:d-0") (lit "doc:d-1") (lit "syn")
     (lit "ua") (lit "ub") (by rfl) (by rfl)⟩

theorem process_input_rejects_whitespace_witness :
    (∀ c ∈ lit " ", pyIsSpace c = true) ∧
    preprocess (fun s => s) BatchType.sentence (lit " ") = [] ∧
    process_input (fun _ => []) (fun _ => []) (fun s => s) BatchType.sentence
        DDState.empty (lit " ") =
      (Except.error PyError.valueError,
       { DDState.empty with rng := DDState.empty.rng + 1 }) :=
  ⟨by decide,
   process_input_rejects_whitespace (fun _ => []) (fun _ => []) (fun s => s)
     BatchType.sentence DDState.empty (lit " ") (by decide)⟩

theorem register_mapping_existing_noop_witness :
    (([⟨lit "L", lit "s", none⟩] : List LSRow).find?
        (fun row => decide (row.dbidL = lit "L")) = some ⟨lit "L", lit "s", none⟩) ∧
    (lit "x").isEmpty = false ∧ lit "x" ≠ lit "s" ∧
    register_mapping (fun n => natToStr n)
        ⟨[⟨lit "L", lit "s", none⟩], [], [], 0⟩ (lit "L") (some (lit "x")) none =
      Except.ok ((lit "L", lit "s"), ⟨[⟨lit "L", lit "s", none⟩], [], [], 0⟩) :=
  ⟨by rfl, by rfl, by decide,
   register_mapping_existing_noop (fun n => natToStr n)
     ⟨[⟨lit "L", lit "s", none⟩], [], [], 0⟩ (lit "L") (lit "x") none
     ⟨lit "L", lit "s", none⟩ (by rfl) (by rfl) (by decide)⟩

theorem rel_count_total_agreement_witness :
    map_addr_to_uuid dbCnt (lit "doc:d-0") = Except.ok (some (lit "u")) ∧
    (_rel_count_function dbCnt (lit "doc:d-0") none =
      Except.ok (dbCnt.relations.filter
        fun r => decide (r.source_uuid = lit "u")).length ∧
    (((dbCnt.relations.filter fun r => decide (r.source_uuid = lit "u")).map
        (fun r => r.relation_type)).dedup.map fun t =>
          ((_rel_all_function dbCnt (lit "doc:d-0") t).toOption.getD []).length).sum
      = (dbCnt.relations.filter fun r => decide (r.source_uuid = lit "u")).length) :=
  ⟨by rfl,
   rel_count_total_agreement dbCnt (lit "doc:d-0") (lit "u") (by rfl) (by decide)⟩

theorem register_mapping_regenerates_on_collision_witness :
    Function.Injective (fun n => 'g' :: natToStr n) ∧
    (([⟨lit "L0", lit "s", none⟩] : List LSRow).find?
        (fun r => decide (r.dbidL = lit "L1")) = none) ∧
    (lit "s").isEmpty = false ∧
    (([⟨lit "L0", lit "s", none⟩] : List LSRow).any
        fun r => decide (r.dbidS = lit "s")) = true ∧
    ∃ S' rng', register_mapping (fun n => 'g' :: natToStr n)
        ⟨[⟨lit "L0", lit "s", none⟩], [], [], 0⟩ (lit "L1") (some (lit "s")) none =
        Except.ok ((lit "L1", S'),
          _update_lstable_file
            { (⟨[⟨lit "L0", lit "s", none⟩], [], [], 0⟩ : LSState) with
                rng := rng',
                table := [⟨lit "L0", lit "s", none⟩] ++ [⟨lit "L1", S', none⟩] }
            (lit "L1") S') ∧
      (([⟨lit "L0", lit "s", none⟩] : List LSRow).any
          fun r => decide (r.dbidS = S')) = false ∧ S' ≠ lit "s" :=
  ⟨fun a b hab => natToStr_injective (List.cons_injective hab),
   by rfl, by rfl, by rfl,
   register_mapping_regenerates_on_collision (fun n => 'g' :: natToStr n)
     (fun a b hab => natToStr_injective (List.cons_injective hab))
     ⟨[⟨lit "L0", lit "s", none⟩], [], [], 0⟩ (lit "L1") (lit "s") none
     (by rfl) (by rfl) (by rfl)⟩

end DimDir
